import Mathlib

/- Shallow embedding of the rc-slot-sim Monte Carlo engine.

   Part 1 embeds the web-worker simulation (the worker section of
   src/components/IntroFoldoutGroup.tsx): the seeded random streams
   (xmur3 and mulberry32), the parametric payout sampler, the 2,000,000
   sample cap-adjustment pre-pass, the per-session state machine, the
   aggregation step and the message dispatch.  Part 2 embeds the bucketed
   distribution model of src/sim/volatilityModel.ts.

   Numbers are modelled as rationals.  Transcendental float functions
   (Math.exp, Math.log, Math.sqrt, Math.cos, Math.pow, Math.PI) are
   abstracted as the fields of a RealOps parameter.  The 32-bit mixing
   arithmetic of the random generators is modelled exactly on natural
   number bit patterns.  Loops without a structural bound take an explicit
   fuel argument and return none when it runs out; the balance top-up loop
   terminates unconditionally (the deposit is clamped positive) and is
   defined by well-founded recursion. -/

namespace SlotSim

/-- Modulus of the 32-bit mixing arithmetic, two to the power 32. -/
def M32 : ℕ := 4294967296

/-- Math.imul on 32-bit patterns: the product reduced mod 2^32. -/
def imul (a b : ℕ) : ℕ := (a * b) % M32

/-- The rotate step `h = (h << 13) | (h >>> 19)` of xmur3 on a 32-bit pattern. -/
def rotl13 (h : ℕ) : ℕ := ((h <<< 13) % M32) ||| (h >>> 19)

/-- One character step of the xmur3 string hash:
`h = Math.imul(h ^ str.charCodeAt(i), 3432918353); h = (h << 13) | (h >>> 19)`. -/
def xmur3Step (h c : ℕ) : ℕ := rotl13 (imul (h ^^^ c) 3432918353)

/-- The character-wise accumulation of xmur3 starting from
`1779033703 ^ str.length`.  Strings are modelled as lists of char codes. -/
def xmur3Body (s : List ℕ) : ℕ := s.foldl xmur3Step (1779033703 ^^^ s.length)

/-- The output mix of xmur3 (the returned closure, called once by createRng). -/
def xmur3Out (h : ℕ) : ℕ :=
  let h1 := imul (h ^^^ (h >>> 16)) 2246822507
  let h2 := imul (h1 ^^^ (h1 >>> 13)) 3266489909
  (h2 ^^^ (h2 >>> 16)) % M32

/-- The 32-bit seed derived from a seed string: xmur3 run over the
characters followed by one output mix. -/
def xmur3 (s : List ℕ) : ℕ := xmur3Out (xmur3Body s)

/-- One output of mulberry32 from the running counter `t` (the counter is
`t += 0x6d2b79f5` per call; all bitwise steps act on `t mod 2^32`). -/
def mulberryMix (t : ℕ) : ℕ :=
  let x := t % M32
  let x1 := imul (x ^^^ (x >>> 15)) (x ||| 1)
  let x2 := x1 ^^^ ((x1 + imul (x1 ^^^ (x1 >>> 7)) (x1 ||| 61)) % M32)
  (x2 ^^^ (x2 >>> 14)) % M32

/-- The mulberry32 stream seeded with `seed`: the n-th call returns the mix
of `seed + (n+1) * 0x6d2b79f5`, divided by 2^32 to land in `[0,1)`. -/
def mulberry32 (seed : ℕ) : ℕ → ℚ :=
  fun n => ((mulberryMix (seed + (n + 1) * 1831565813) : ℕ) : ℚ) / 4294967296

/-- createRng: an empty or absent seed string yields the ambient system
stream (Math.random); a non-empty seed yields the mulberry32 stream seeded
by the xmur3 hash of the string. -/
def createRng (sys : ℕ → ℚ) : Option (List ℕ) → (ℕ → ℚ)
  | none => sys
  | some [] => sys
  | some (c :: cs) => mulberry32 (xmur3 (c :: cs))

/-- Abstracted transcendental float operations used by the engine. -/
structure RealOps where
  exp : ℚ → ℚ
  log : ℚ → ℚ
  sqrt : ℚ → ℚ
  cos : ℚ → ℚ
  pow : ℚ → ℚ → ℚ
  pi : ℚ

/-- The retry loop `let u = 0; while (u === 0) u = rng();` of randomNormal:
draws from position `pos`, skipping zeros, with a fuel bound on attempts. -/
def drawNonzero (rng : ℕ → ℚ) : ℕ → ℕ → Option (ℚ × ℕ)
  | 0, _ => none
  | fuel + 1, pos =>
    if rng pos = 0 then drawNonzero rng fuel (pos + 1) else some (rng pos, pos + 1)

/-- randomNormal: Box-Muller from two nonzero uniforms,
`sqrt(-2 ln u) * cos(2 pi v)`. -/
def randomNormal (ops : RealOps) (rng : ℕ → ℚ) (fuel pos : ℕ) : Option (ℚ × ℕ) :=
  (drawNonzero rng fuel pos).bind fun uv =>
    (drawNonzero rng fuel uv.2).map fun vv =>
      (ops.sqrt (-2 * ops.log uv.1) * ops.cos (2 * ops.pi * vv.1), vv.2)

/-- The Marsaglia-Tsang rejection loop of gammaSample for shape `k >= 1`,
with a fuel bound on rejection iterations. -/
def gammaCore (ops : RealOps) (rng : ℕ → ℚ) (k : ℚ) : ℕ → ℕ → Option (ℚ × ℕ)
  | 0, _ => none
  | fuel + 1, pos =>
    let d := k - 1/3
    let c := 1 / ops.sqrt (9 * d)
    (randomNormal ops rng (fuel + 1) pos).bind fun xv =>
      let x := xv.1
      let v0 := 1 + c * x
      if v0 ≤ 0 then gammaCore ops rng k fuel xv.2
      else
        let v := v0 * v0 * v0
        let u := rng xv.2
        if u < 1 - 331/10000 * x ^ 4 then some (d * v, xv.2 + 1)
        else if ops.log u < 1/2 * x * x + d * (1 - v + ops.log v) then some (d * v, xv.2 + 1)
        else gammaCore ops rng k fuel (xv.2 + 1)

/-- gammaSample: for `k < 1` boost via `gammaSample(1+k) * u^(1/k)` (the
uniform is drawn first), otherwise run the rejection loop directly. -/
def gammaSample (ops : RealOps) (rng : ℕ → ℚ) (k : ℚ) (fuel pos : ℕ) : Option (ℚ × ℕ) :=
  if k < 1 then
    (gammaCore ops rng (1 + k) fuel (pos + 1)).map fun gv =>
      (gv.1 * ops.pow (rng pos) (1 / k), gv.2)
  else gammaCore ops rng k fuel pos

/-- Shape of a volatility tier in the worker: gamma with shape `k` or
lognormal with the given sigma. -/
inductive PayoutKind
  | gamma (k : ℚ)
  | lognormal (sigma : ℚ)
deriving DecidableEq

/-- One entry of VOLATILITY_SETTINGS. -/
structure VolSettings where
  p0 : ℚ
  kind : PayoutKind
  cap : ℚ
deriving DecidableEq

/-- The three volatility tiers. -/
inductive Volatility | LOW | MEDIUM | HIGH
deriving DecidableEq

/-- VOLATILITY_SETTINGS of the worker. -/
def VOLATILITY_SETTINGS : Volatility → VolSettings
  | .LOW => ⟨55/100, .gamma 6, 50⟩
  | .MEDIUM => ⟨7/10, .gamma 2, 200⟩
  | .HIGH => ⟨82/100, .lognormal (13/10), 2000⟩

/-- The raw (pre-cap) multiplier draw shared by samplePayout and the
cap-adjustment pre-pass: a normalized gamma draw `gamma(k)/k`, or a
lognormal draw `exp(-sigma^2/2 + sigma * normal)`. -/
def rawMultiplier (ops : RealOps) (rng : ℕ → ℚ) (s : VolSettings) (fuel pos : ℕ) :
    Option (ℚ × ℕ) :=
  match s.kind with
  | .gamma k => (gammaSample ops rng k fuel pos).map fun gv => (gv.1 * (1 / k), gv.2)
  | .lognormal sigma =>
    (randomNormal ops rng fuel pos).map fun nv =>
      (ops.exp (-(sigma ^ 2) / 2 + sigma * nv.1), nv.2)

/-- samplePayout: with probability p0 pay zero; otherwise draw the raw
multiplier, scale by muNonzero, clamp at the tier cap, multiply by the
cap adjustment and return `bet * multiplier`. -/
def samplePayout (ops : RealOps) (s : VolSettings) (muNonzero capAdjustment : ℚ)
    (rng : ℕ → ℚ) (fuel : ℕ) (bet : ℚ) (pos : ℕ) : Option (ℚ × ℕ) :=
  if rng pos < s.p0 then some (0, pos + 1)
  else
    (rawMultiplier ops rng s fuel (pos + 1)).map fun rv =>
      let m := muNonzero * rv.1
      let m2 := if s.cap < m then s.cap else m
      (bet * (m2 * capAdjustment), rv.2)

/-- The sampling loop of computeCapAdjustment: accumulate the capped value
`min(muNonzero * raw, cap)` over the requested number of samples. -/
def capLoopPre (ops : RealOps) (rng : ℕ → ℚ) (s : VolSettings) (muNonzero : ℚ)
    (fuel : ℕ) : ℕ → ℕ → ℚ → Option (ℚ × ℕ)
  | 0, pos, sum => some (sum, pos)
  | n + 1, pos, sum =>
    (rawMultiplier ops rng s fuel pos).bind fun rv =>
      let v := muNonzero * rv.1
      let v2 := if s.cap < v then s.cap else v
      capLoopPre ops rng s muNonzero fuel n rv.2 (sum + v2)

/-- Number of pre-pass samples in computeCapAdjustment. -/
def capSamples : ℕ := 2000000

/-- computeCapAdjustment: the ratio of the uncapped mean `muNonzero` to the
Monte Carlo estimate of the capped mean. -/
def computeCapAdjustment (ops : RealOps) (s : VolSettings) (muNonzero : ℚ)
    (rng : ℕ → ℚ) (fuel : ℕ) : Option ℚ :=
  (capLoopPre ops rng s muNonzero fuel capSamples 0 0).map fun sv =>
    muNonzero / (sv.1 / (capSamples : ℚ))

/-- Tolerance used by the top-up sufficiency check, 1e-9. -/
def epsPay : ℚ := 1 / 1000000000

/-- The auto top-up loop
`while (balance + 1e-9 < bet) { balance += depositAmount; totalCashIn += depositAmount; }`;
it terminates because the deposit is clamped to at least 0.01. -/
def topUp (d : ℚ) (hd : 0 < d) (bet balance cashIn : ℚ) : ℚ × ℚ :=
  if balance + epsPay < bet then topUp d hd bet (balance + d) (cashIn + d)
  else (balance, cashIn)
termination_by (⌈(bet - epsPay - balance) / d⌉).toNat
decreasing_by
  rename_i h
  have key : (bet - epsPay - (balance + d)) / d = (bet - epsPay - balance) / d - 1 := by
    rw [show bet - epsPay - (balance + d) = (bet - epsPay - balance) - d by ring,
      sub_div, div_self hd.ne']
  have hpos : 0 < (bet - epsPay - balance) / d := div_pos (by linarith) hd
  have h1 : 0 < ⌈(bet - epsPay - balance) / d⌉ := Int.ceil_pos.mpr hpos
  simp only [key, Int.ceil_sub_one]
  omega

/-- Per-session mutable state of the session loop, including the raw
coin-in and net histories and the current draw position of the payout
sampler. -/
structure SessState where
  coinInCents : ℤ
  totalPayout : ℚ
  net : ℚ
  peakNet : ℚ
  maxDrawdown : ℚ
  spins : ℕ
  balance : ℚ
  totalCashIn : ℚ
  coinInHistory : List ℚ
  netHistory : List ℚ
  pos : ℕ
deriving DecidableEq

/-- The session while-loop `while (coinInCents < targetCents) { ... }`,
parameterized over the payout sampler `payoutOf` (the worker instantiates
it with samplePayout).  Each spin wagers `min(betCents, remainingCents)`,
tops the balance up, debits the wager, credits the sampled payout and
updates net, peak, drawdown, the histories and the spin count.  The loop
takes a fuel bound and returns none when it runs out. -/
def sessionLoop (payoutOf : ℚ → ℕ → Option (ℚ × ℕ)) (betCents targetCents : ℤ)
    (d : ℚ) (hd : 0 < d) : ℕ → SessState → Option SessState
  | 0, _ => none
  | fuel + 1, st =>
    if st.coinInCents < targetCents then
      let remainingCents := targetCents - st.coinInCents
      let spinBetCents := min betCents remainingCents
      let bet : ℚ := (spinBetCents : ℚ) / 100
      let bc := topUp d hd bet st.balance st.totalCashIn
      (payoutOf bet st.pos).bind fun pv =>
        let net2 := st.net + (pv.1 - bet)
        let peak2 := if st.peakNet < net2 then net2 else st.peakNet
        let dd := peak2 - net2
        let coin2 := st.coinInCents + spinBetCents
        sessionLoop payoutOf betCents targetCents d hd fuel
          { coinInCents := coin2
            totalPayout := st.totalPayout + pv.1
            net := net2
            peakNet := peak2
            maxDrawdown := if st.maxDrawdown < dd then dd else st.maxDrawdown
            spins := st.spins + 1
            balance := bc.1 - bet + pv.1
            totalCashIn := bc.2
            coinInHistory := st.coinInHistory ++ [(coin2 : ℚ) / 100]
            netHistory := st.netHistory ++ [net2]
            pos := pv.2 }
    else some st

/-- Initial per-session state: zero counters, the opening deposit as both
balance and cash-in, histories seeded with the origin sample. -/
def initSessState (d : ℚ) (pos : ℕ) : SessState :=
  { coinInCents := 0, totalPayout := 0, net := 0, peakNet := 0, maxDrawdown := 0,
    spins := 0, balance := d, totalCashIn := d,
    coinInHistory := [0], netHistory := [0], pos := pos }

/-- Math.round of JavaScript: floor of `x + 1/2` (round half toward plus
infinity). -/
def jsRound (x : ℚ) : ℤ := ⌊x + 1/2⌋

/-- Ascending numeric sort, the model of `array.sort((a, b) => a - b)`.
On rationals every sorted permutation is the same list, so insertion sort
is an exact model regardless of the algorithm the runtime uses. -/
def jsSortAsc (l : List ℚ) : List ℚ := List.insertionSort (· ≤ ·) l

/-- Arithmetic mean with the explicit empty-list guard of the source. -/
def mean (values : List ℚ) : ℚ :=
  if values = [] then 0 else values.sum / (values.length : ℚ)

/-- Population standard deviation around a given mean; Math.sqrt is the
abstracted ops.sqrt. -/
def stddev (ops : RealOps) (values : List ℚ) (meanValue : ℚ) : ℚ :=
  if values = [] then 0
  else ops.sqrt ((values.map fun v => (v - meanValue) ^ 2).sum / (values.length : ℚ))

/-- Linear-interpolation percentile over an ascending-sorted list at the
continuous rank `p/100 * (n-1)`. -/
def percentileSorted (sorted : List ℚ) (percentile : ℚ) : ℚ :=
  if sorted = [] then 0
  else
    let index : ℚ := percentile / 100 * ((sorted.length : ℚ) - 1)
    let lower := ⌊index⌋
    let upper := ⌈index⌉
    if lower = upper then sorted.getD lower.toNat 0
    else
      let weight := index - (lower : ℚ)
      sorted.getD lower.toNat 0 * (1 - weight) + sorted.getD upper.toNat 0 * weight

/-- Median of an ascending-sorted list, the 50th percentile. -/
def medianSorted (sorted : List ℚ) : ℚ := percentileSorted sorted 50

/-- Fixed loss thresholds of the worker. -/
def LOSS_THRESHOLDS : List ℚ := [500, 1000, 2000, 3000, 5000]

/-- Statistics of the final-net distribution. -/
structure FinalNetStats where
  mean : ℚ
  median : ℚ
  stddev : ℚ
  min : ℚ
  max : ℚ
  p01 : ℚ
  p05 : ℚ
  p10 : ℚ
  p25 : ℚ
  p50 : ℚ
  p75 : ℚ
  p90 : ℚ
  p95 : ℚ
  p99 : ℚ
  p_profit : ℚ
  p_loss_gt : List (ℚ × ℚ)
  cvar_5 : ℚ
  cvar_1 : ℚ
deriving DecidableEq

/-- Drawdown summary statistics. -/
structure DrawdownStats where
  mean : ℚ
  median : ℚ
  p95 : ℚ
deriving DecidableEq

/-- Mean and median pair used for cash-in and ending balance. -/
structure MeanMedian where
  mean : ℚ
  median : ℚ
deriving DecidableEq

/-- Indices of the selected exemplar runs. -/
structure SelectedRuns where
  best_run_index : ℕ
  worst_run_index : ℕ
  sample_run_indices : List ℕ
deriving DecidableEq

/-- Aggregate metrics over all runs. -/
structure AggregateMetrics where
  final_net : FinalNetStats
  max_drawdown : DrawdownStats
  cash_in : MeanMedian
  ending_balance : MeanMedian
  selected_runs : SelectedRuns
deriving DecidableEq

/-- computeAggregate of the worker.  The CVaR tail sizes use
`max(1, floor(n * alpha))`; the sorted lists are ascending.  With an empty
run list the source indexes out of range (undefined) where this model
returns the default 0; no claim depends on that case. -/
def computeAggregate (ops : RealOps) (finalNets maxDrawdowns cashIns endingBalances : List ℚ)
    (selectedRuns : SelectedRuns) : AggregateMetrics :=
  let sortedFinals := jsSortAsc finalNets
  let sortedDrawdowns := jsSortAsc maxDrawdowns
  let sortedCashIns := jsSortAsc cashIns
  let sortedEndingBalances := jsSortAsc endingBalances
  let meanFinal := mean finalNets
  let stddevFinal := stddev ops finalNets meanFinal
  let medianFinal := percentileSorted sortedFinals 50
  let n : ℚ := (finalNets.length : ℚ)
  let cvar5Count := Nat.max 1 (⌊n * (5/100)⌋).toNat
  let cvar1Count := Nat.max 1 (⌊n * (1/100)⌋).toNat
  let cvar5 := mean (sortedFinals.take cvar5Count)
  let cvar1 := mean (sortedFinals.take cvar1Count)
  { final_net :=
      { mean := meanFinal, median := medianFinal, stddev := stddevFinal,
        min := sortedFinals.getD 0 0,
        max := sortedFinals.getD (sortedFinals.length - 1) 0,
        p01 := percentileSorted sortedFinals 1, p05 := percentileSorted sortedFinals 5,
        p10 := percentileSorted sortedFinals 10, p25 := percentileSorted sortedFinals 25,
        p50 := percentileSorted sortedFinals 50, p75 := percentileSorted sortedFinals 75,
        p90 := percentileSorted sortedFinals 90, p95 := percentileSorted sortedFinals 95,
        p99 := percentileSorted sortedFinals 99,
        p_profit := ((finalNets.filter fun v => 0 < v).length : ℚ) / n,
        p_loss_gt := LOSS_THRESHOLDS.map fun t =>
          (t, ((finalNets.filter fun v => v < -t).length : ℚ) / n),
        cvar_5 := cvar5, cvar_1 := cvar1 },
    max_drawdown :=
      { mean := mean maxDrawdowns, median := percentileSorted sortedDrawdowns 50,
        p95 := percentileSorted sortedDrawdowns 95 },
    cash_in := { mean := mean cashIns, median := percentileSorted sortedCashIns 50 },
    ending_balance :=
      { mean := mean endingBalances, median := percentileSorted sortedEndingBalances 50 },
    selected_runs := selectedRuns }

/-- sampleRunIndices: run 1, every step-th run and the last run,
deduplicated and sorted ascending. -/
def sampleRunIndices (totalRuns step : ℕ) : List ℕ :=
  List.insertionSort (· ≤ ·)
    ((((min 1 totalRuns) :: ((List.range (totalRuns / step)).map fun i => (i + 1) * step))
      ++ [totalRuns]).dedup)

/-- Number rounding of `toFixed(6)` applied by the grid builder. -/
def toFixed6 (x : ℚ) : ℚ := ((jsRound (x * 1000000) : ℤ) : ℚ) / 1000000

/-- buildCoinInGrid: at most one point degenerates to the two endpoints,
otherwise an equally spaced grid over `[0, maxCoinIn]` rounded to 6
decimals. -/
def buildCoinInGrid (points : ℕ) (maxCoinIn : ℚ) : List ℚ :=
  if points ≤ 1 then [0, maxCoinIn]
  else (List.range points).map fun (i : ℕ) => toFixed6 ((i : ℚ) * (maxCoinIn / ((points : ℚ) - 1)))

/-- The cursor advance of downsampleTrajectory:
`while (index < coinIn.length - 1 && coinIn[index + 1] < x) index += 1`,
bounded by the list length. -/
def advanceIdx (coinIn : List ℚ) (x : ℚ) : ℕ → ℕ → ℕ
  | 0, idx => idx
  | k + 1, idx =>
    if idx + 1 < coinIn.length ∧ coinIn.getD (idx + 1) 0 < x then
      advanceIdx coinIn x k (idx + 1)
    else idx

/-- One grid point of downsampleTrajectory: clamp before the first and
after the last trace sample, resolve zero-width intervals to the later net
value, otherwise interpolate linearly; returns the value and the advanced
cursor. -/
def samplePoint (coinIn net : List ℚ) (x : ℚ) (idx0 : ℕ) : ℚ × ℕ :=
  let idx := advanceIdx coinIn x coinIn.length idx0
  if x ≤ coinIn.getD 0 0 then (net.getD 0 0, idx)
  else if coinIn.length ≤ idx + 1 then (net.getD (net.length - 1) 0, idx)
  else
    let x0 := coinIn.getD idx 0
    let x1 := coinIn.getD (idx + 1) 0
    let y0 := net.getD idx 0
    let y1 := net.getD (idx + 1) 0
    if x1 = x0 then (y1, idx)
    else (y0 + (x - x0) / (x1 - x0) * (y1 - y0), idx)

/-- The grid traversal of downsampleTrajectory with its monotone cursor. -/
def downsampleGo (coinIn net : List ℚ) : List ℚ → ℕ → List ℚ
  | [], _ => []
  | x :: xs, idx =>
    let r := samplePoint coinIn net x idx
    r.1 :: downsampleGo coinIn net xs r.2

/-- downsampleTrajectory: resample a raw (coin-in, net) trace onto the
shared grid. -/
def downsampleTrajectory (coinIn net grid : List ℚ) : List ℚ :=
  downsampleGo coinIn net grid 0

/-- medianTrajectory: per-grid-point median over all aligned runs. -/
def medianTrajectory (runs : List (List ℚ)) : List ℚ :=
  match runs with
  | [] => []
  | r0 :: _ =>
    (List.range r0.length).map fun i =>
      medianSorted (List.insertionSort (· ≤ ·) (runs.map fun run => run.getD i 0))

/-- Per-run metrics record (RunMetrics of the source). -/
structure RunMetrics where
  run_index : ℕ
  spins : ℕ
  total_coin_in : ℚ
  total_payout : ℚ
  final_net : ℚ
  max_drawdown : ℚ
  time_estimate_minutes : ℚ
  total_cash_in : ℚ
  ending_balance : ℚ
deriving DecidableEq

/-- Accumulator of the run loop in runSimulation: the per-run collections,
the best and worst tracking (bestNet starts at minus infinity, worstNet at
plus infinity) and the primary stream position carried across runs. -/
structure RunAcc where
  runs : List RunMetrics
  finalNets : List ℚ
  maxDrawdowns : List ℚ
  cashIns : List ℚ
  endingBalances : List ℚ
  downsampledRuns : List (List ℚ)
  bestRunIndex : ℕ
  worstRunIndex : ℕ
  bestNet : WithBot ℚ
  worstNet : WithTop ℚ
  bestTrajectory : List ℚ
  worstTrajectory : List ℚ
  pos : ℕ

/-- Initial run-loop accumulator. -/
def initRunAcc : RunAcc :=
  { runs := [], finalNets := [], maxDrawdowns := [], cashIns := [], endingBalances := [],
    downsampledRuns := [], bestRunIndex := 1, worstRunIndex := 1,
    bestNet := ⊥, worstNet := ⊤, bestTrajectory := [], worstTrajectory := [], pos := 0 }

/-- Body of one iteration of the run loop after a session completes:
downsample the trace, update the best and worst tracking, append the run
metrics and the per-metric lists, and carry the stream position forward. -/
def pushRun (grid : List ℚ) (spinsPerSec : ℚ) (runIndex : ℕ) (st : SessState)
    (acc : RunAcc) : RunAcc :=
  let downsampled := downsampleTrajectory st.coinInHistory st.netHistory grid
  let finalNet := st.net
  let isBest := acc.bestNet < (finalNet : WithBot ℚ)
  let isWorst := (finalNet : WithTop ℚ) < acc.worstNet
  let rm : RunMetrics :=
    { run_index := runIndex, spins := st.spins,
      total_coin_in := (st.coinInCents : ℚ) / 100,
      total_payout := st.totalPayout, final_net := finalNet,
      max_drawdown := st.maxDrawdown,
      time_estimate_minutes := (st.spins : ℚ) / max (1/100) spinsPerSec / 60,
      total_cash_in := st.totalCashIn, ending_balance := st.balance }
  { runs := acc.runs ++ [rm],
    finalNets := acc.finalNets ++ [finalNet],
    maxDrawdowns := acc.maxDrawdowns ++ [st.maxDrawdown],
    cashIns := acc.cashIns ++ [st.totalCashIn],
    endingBalances := acc.endingBalances ++ [st.balance],
    downsampledRuns := acc.downsampledRuns ++ [downsampled],
    bestRunIndex := if isBest then runIndex else acc.bestRunIndex,
    worstRunIndex := if isWorst then runIndex else acc.worstRunIndex,
    bestNet := if isBest then (finalNet : WithBot ℚ) else acc.bestNet,
    worstNet := if isWorst then (finalNet : WithTop ℚ) else acc.worstNet,
    bestTrajectory := if isBest then downsampled else acc.bestTrajectory,
    worstTrajectory := if isWorst then downsampled else acc.worstTrajectory,
    pos := st.pos }

/-- The run loop `for (runIndex = 1; runIndex <= runs; runIndex += 1)` of
runSimulation.  `f runIndex` is the value of the module-level cancellation
flag as observed at the top of iteration runIndex (the flag can only
change at the cooperative yield points between sessions); when it reads
true the loop breaks with the sessions completed so far. -/
def runsLoop (payoutOf : ℚ → ℕ → Option (ℚ × ℕ)) (betCents targetCents : ℤ)
    (d : ℚ) (hd : 0 < d) (sessFuel : ℕ) (grid : List ℚ) (spinsPerSec : ℚ)
    (f : ℕ → Bool) : ℕ → ℕ → RunAcc → Option RunAcc
  | 0, _, acc => some acc
  | n + 1, runIndex, acc =>
    if f runIndex then some acc
    else
      (sessionLoop payoutOf betCents targetCents d hd sessFuel
          (initSessState d acc.pos)).bind fun st =>
        runsLoop payoutOf betCents targetCents d hd sessFuel grid spinsPerSec f
          n (runIndex + 1) (pushRun grid spinsPerSec runIndex st acc)

/-- SimulationInputs of the source. -/
structure SimInputs where
  rtp_percent : ℚ
  volatility : Volatility
  bet_size : ℚ
  deposit_amount : ℚ
  target_points : ℚ
  points_per_dollar : ℚ
  coin_in_target : ℚ
  runs : ℕ
  seed : Option (List ℕ)
  spins_per_sec : ℚ
  spins_per_min : Option ℚ := none
  traj_points : ℕ
deriving DecidableEq

/-- Trajectory bundle of the result. -/
structure Trajectories where
  x_coin_in : List ℚ
  samples : List (List ℚ)
  sample_run_indices : List ℕ
  best : List ℚ
  worst : List ℚ
  typical_median : List ℚ
deriving DecidableEq

/-- SimulationResult.  The meta block is reduced to its two call-dependent
fields: metaId models crypto.randomUUID() and metaCreatedAt models the
clock reading of new Date(); both are ambient inputs of a run.  The
constant schema, model and app version strings are omitted. -/
structure SimResult where
  inputs : SimInputs
  aggregate : AggregateMetrics
  runs : List RunMetrics
  trajectories : Trajectories
  metaId : ℕ
  metaCreatedAt : ℕ
deriving DecidableEq

/-- Char codes of the string `seedless-cap` or `<seed>-cap` used to seed
the secondary stream of the cap-adjustment pre-pass. -/
def capSeedChars : Option (List ℕ) → List ℕ
  | none => [115, 101, 101, 100, 108, 101, 115, 115] ++ [45, 99, 97, 112]
  | some s => s ++ [45, 99, 97, 112]

/-- Positivity of the clamped deposit `Math.max(0.01, deposit_amount)`. -/
theorem depositClamp_pos (x : ℚ) : (0 : ℚ) < max (1/100) x :=
  lt_of_lt_of_le (by norm_num) (le_max_left _ _)

/-- runSimulation: derive the target mean, build the two random streams,
run the cap-adjustment pre-pass, run all sessions, aggregate, and assemble
the result.  `sys` is the ambient Math.random stream, `f` the observed
cancellation flag per run index, `uuid` and `now` the ambient randomUUID
and clock values of the final meta block. -/
def runSimulation (ops : RealOps) (fuel sessFuel : ℕ) (inputs : SimInputs)
    (sys : ℕ → ℚ) (f : ℕ → Bool) (uuid now : ℕ) : Option SimResult :=
  let rtp := inputs.rtp_percent / 100
  let settings := VOLATILITY_SETTINGS inputs.volatility
  let muNonzero := rtp / (1 - settings.p0)
  let rng := createRng sys inputs.seed
  let capRng := createRng sys (some (capSeedChars inputs.seed))
  (computeCapAdjustment ops settings muNonzero capRng fuel).bind fun capAdjustment =>
    let depositAmount := max (1/100) inputs.deposit_amount
    let betCents := jsRound (inputs.bet_size * 100)
    let targetCents := jsRound (inputs.coin_in_target * 100)
    let grid := buildCoinInGrid inputs.traj_points inputs.coin_in_target
    let payoutOf := fun bet pos =>
      samplePayout ops settings muNonzero capAdjustment rng fuel bet pos
    (runsLoop payoutOf betCents targetCents depositAmount
        (depositClamp_pos inputs.deposit_amount) sessFuel grid inputs.spins_per_sec f
        inputs.runs 1 initRunAcc).map fun acc =>
      let typicalTrajectory := medianTrajectory acc.downsampledRuns
      let sampleIndices := sampleRunIndices inputs.runs 100
      let sampleTrajectories := sampleIndices.map fun idx => acc.downsampledRuns.getD (idx - 1) []
      let aggregate := computeAggregate ops acc.finalNets acc.maxDrawdowns acc.cashIns
        acc.endingBalances ⟨acc.bestRunIndex, acc.worstRunIndex, sampleIndices⟩
      { inputs := inputs, aggregate := aggregate, runs := acc.runs,
        trajectories :=
          { x_coin_in := grid, samples := sampleTrajectories,
            sample_run_indices := sampleIndices, best := acc.bestTrajectory,
            worst := acc.worstTrajectory, typical_median := typicalTrajectory },
        metaId := uuid, metaCreatedAt := now }

/-- Terminal messages the worker can post for a simulate request. -/
inductive WorkerMsg
  | done (r : SimResult)
  | cancelledMsg
  | errorMsg
deriving DecidableEq

/-- Payload sessions carried by a terminal message: the done message
carries the result run list; the cancelled and error messages carry no
sessions. -/
def msgRuns : WorkerMsg → Option (List RunMetrics)
  | .done r => some r.runs
  | _ => none

/-- The dispatch in the onmessage handler once runSimulation resolves: if
the cancellation flag reads true, post cancelled (without payload),
otherwise post done with the result.  A none result models a computation
that never resolves, for which no message is posted. -/
def dispatchResult (flagAtEnd : Bool) : Option SimResult → Option WorkerMsg
  | none => none
  | some r => some (if flagAtEnd then .cancelledMsg else .done r)

/-- End-to-end worker behavior for one simulate request: run the
simulation, then dispatch on the cancellation flag as observed after the
run loop (index runs + 1). -/
def runWorker (ops : RealOps) (fuel sessFuel : ℕ) (inputs : SimInputs)
    (sys : ℕ → ℚ) (f : ℕ → Bool) (uuid now : ℕ) : Option WorkerMsg :=
  dispatchResult (f (inputs.runs + 1)) (runSimulation ops fuel sessFuel inputs sys f uuid now)

/- Part 2: the bucketed distribution model of src/sim/volatilityModel.ts. -/

/-- Outcome of a tier template: a base multiplier and its probability. -/
structure Outcome where
  m_base : ℚ
  p : ℚ
deriving DecidableEq

/-- TierTemplate: the ordered outcome list and the tier payout cap. -/
structure TierTemplate where
  outcomes : List Outcome
  max_multiplier_allowed : ℚ
deriving DecidableEq

/-- CalibratedDistribution of the source. -/
structure CalibratedDistribution where
  multipliers : List ℚ
  cdf : List ℚ
  mean : ℚ
deriving DecidableEq

/-- A probability and multiplier pair, the element shape used by the
calibration code. -/
structure PM where
  p : ℚ
  m : ℚ
deriving DecidableEq

/-- Tier configuration consumed by buildBucketedOutcomes. -/
structure BucketConfig where
  bucket_count : ℕ
  zero_probability : ℚ
  min_multiplier : ℚ
  max_multiplier : ℚ
  log_mu : ℚ
  log_sigma : ℚ
  tail_weight : ℚ
  tail_alpha : ℚ

/-- buildBucketedOutcomes: partition log space into equal bins, weight each
bin midpoint by a log-normal density term plus a power-law tail term,
normalize the non-zero weights to `1 - zero_probability` and prepend the
explicit zero outcome.  Zero total weight collapses to the zero outcome
alone. -/
def buildBucketedOutcomes (ops : RealOps) (config : BucketConfig) : List Outcome :=
  let logMin := ops.log config.min_multiplier
  let logMax := ops.log config.max_multiplier
  let step := (logMax - logMin) / (config.bucket_count : ℚ)
  let pairs := (List.range config.bucket_count).map fun (i : ℕ) =>
    let logMid := logMin + step * ((i : ℚ) + 1/2)
    let multiplier := ops.exp logMid
    let logNormal := ops.exp (-((logMid - config.log_mu) ^ 2) / (2 * config.log_sigma ^ 2))
    let tail := config.tail_weight * ops.pow multiplier (-config.tail_alpha)
    (multiplier, logNormal + tail)
  let totalWeight := (pairs.map fun pr => pr.2).sum
  if totalWeight ≤ 0 then [⟨0, config.zero_probability⟩]
  else
    let scale := (1 - config.zero_probability) / totalWeight
    ⟨0, config.zero_probability⟩ :: pairs.map fun pr => ⟨pr.1, pr.2 * scale⟩

/-- buildBucketedTemplate wraps the outcomes with the tier cap. -/
def buildBucketedTemplate (ops : RealOps) (config : BucketConfig) : TierTemplate :=
  ⟨buildBucketedOutcomes ops config, config.max_multiplier⟩

/-- Bucket count shared by all tiers. -/
def BUCKET_COUNT : ℕ := 80

/-- The three fixed tier templates. -/
def VOLATILITY_TEMPLATES (ops : RealOps) : Volatility → TierTemplate
  | .LOW => buildBucketedTemplate ops
      ⟨BUCKET_COUNT, 55/100, 1/10, 1000, ops.log (6/10), 55/100, 2/100, 33/10⟩
  | .MEDIUM => buildBucketedTemplate ops
      ⟨BUCKET_COUNT, 7/10, 1/10, 5000, ops.log (8/10), 75/100, 6/100, 27/10⟩
  | .HIGH => buildBucketedTemplate ops
      ⟨BUCKET_COUNT, 88/100, 1/10, 20000, ops.log 1, 95/100, 12/100, 22/10⟩

/-- normalizeRtp: values above 1 are percentages. -/
def normalizeRtp (rtp : ℚ) : ℚ := if 1 < rtp then rtp / 100 else rtp

/-- roundToCents of the source. -/
def roundToCents (value : ℚ) : ℚ := ((jsRound (value * 100) : ℤ) : ℚ) / 100

/-- normalizeOutcomes: divide by the probability total unless it is zero. -/
def normalizeOutcomes (outcomes : List Outcome) : List Outcome :=
  let total := (outcomes.map fun o => o.p).sum
  if total = 0 then outcomes else outcomes.map fun o => ⟨o.m_base, o.p / total⟩

/-- meanMultiplier: probability-weighted mean of the multipliers. -/
def meanMultiplier (outcomes : List PM) : ℚ := (outcomes.map fun o => o.p * o.m).sum

/-- Running prefix sums of buildCdf. -/
def buildCdfAux (acc : ℚ) : List ℚ → List ℚ
  | [] => []
  | p :: ps => (acc + p) :: buildCdfAux (acc + p) ps

/-- The closing step of buildCdf: force the last cumulative value to
exactly 1. -/
def forceLastOne : List ℚ → List ℚ
  | [] => []
  | [_] => [1]
  | x :: y :: rest => x :: forceLastOne (y :: rest)

/-- buildCdf: prefix sums of the probabilities with the last value forced
to 1. -/
def buildCdf (probabilities : List ℚ) : List ℚ := forceLastOne (buildCdfAux 0 probabilities)

/-- Math.max over a spread list; every call site passes a non-empty list
(the empty case, minus infinity in the runtime, is represented by 0 and
never reached). -/
def jsMax : List ℚ → ℚ
  | [] => 0
  | x :: xs => xs.foldl max x

/-- Weighted sum over the still adjustable outcomes. -/
def sumAdjustable : List PM → List Bool → ℚ
  | [], _ => 0
  | _, [] => 0
  | o :: os, b :: bs => (if b then o.p * o.m else 0) + sumAdjustable os bs

/-- One rescaling pass of the cap-aware loop: multiply every adjustable
outcome by the factor, re-clamping and freezing any outcome that reaches
the cap; the Bool result records whether any outcome became newly capped. -/
def capUpdate (factor maxAllowed : ℚ) : List PM → List Bool → (List PM × List Bool × Bool)
  | [], _ => ([], [], false)
  | o :: os, [] => (o :: os, [], false)
  | o :: os, b :: bs =>
    let r := capUpdate factor maxAllowed os bs
    if b then
      let next := o.m * factor
      if maxAllowed ≤ next then (⟨o.p, maxAllowed⟩ :: r.1, false :: r.2.1, true)
      else (⟨o.p, next⟩ :: r.1, true :: r.2.1, r.2.2)
    else (o :: r.1, b :: r.2.1, r.2.2)

/-- Tolerance of the cap-aware rebalancing loop, 1e-10. -/
def epsCal : ℚ := 1 / 10000000000

/-- The bounded iteration of capAwareCalibration: stop when the mean
deficit closes, when the adjustable mass is exhausted, when an iteration
caps no new outcome, or after the guard bound. -/
def capIter (rtpMean maxAllowed : ℚ) : ℕ → List PM → List Bool → ℚ → List PM
  | 0, cal, _, _ => cal
  | g + 1, cal, adj, delta =>
    if delta ≤ epsCal then cal
    else
      let sumMid := sumAdjustable cal adj
      if sumMid ≤ 0 then cal
      else
        let factor := 1 + delta / sumMid
        let r := capUpdate factor maxAllowed cal adj
        let delta2 := rtpMean - meanMultiplier r.1
        if r.2.2 then capIter rtpMean maxAllowed g r.1 r.2.1 delta2 else r.1

/-- capAwareCalibration: clamp at the cap, then iteratively rescale the
still adjustable outcomes toward the target mean, at most 20 passes. -/
def capAwareCalibration (outcomes : List PM) (rtpMean maxAllowed : ℚ) : List PM :=
  let calibrated := outcomes.map fun o => ⟨o.p, min o.m maxAllowed⟩
  let delta := rtpMean - meanMultiplier calibrated
  if delta ≤ 0 then calibrated
  else
    capIter rtpMean maxAllowed 20 calibrated
      (calibrated.map fun o => decide (0 < o.m ∧ o.m < maxAllowed - epsCal)) delta

/-- Normalized outcome list of a tier, the first step of
buildCalibratedDistribution. -/
def normalizedOf (ops : RealOps) (v : Volatility) : List Outcome :=
  normalizeOutcomes (VOLATILITY_TEMPLATES ops v).outcomes

/-- Base mean multiplier of a tier after normalization. -/
def muBaseOf (ops : RealOps) (v : Volatility) : ℚ :=
  ((normalizedOf ops v).map fun o => o.p * o.m_base).sum

/-- The scaled outcome set `m_i = m_base_i * (r / mu_base)`. -/
def scaledOf (ops : RealOps) (v : Volatility) (rtpMean : ℚ) : List PM :=
  (normalizedOf ops v).map fun o => ⟨o.p, o.m_base * (rtpMean / muBaseOf ops v)⟩

/-- buildCalibratedDistribution: normalize, compute the base mean (with the
all-zero fallback when it is not positive), scale to the target, apply the
cap-aware rebalancing only when the maximum scaled multiplier exceeds the
tier cap, and assemble multipliers, cdf and recomputed mean. -/
def buildCalibratedDistribution (ops : RealOps) (v : Volatility) (rtpMean : ℚ) :
    CalibratedDistribution :=
  let template := VOLATILITY_TEMPLATES ops v
  let normalized := normalizedOf ops v
  let muBase := muBaseOf ops v
  if muBase ≤ 0 then
    { multipliers := normalized.map fun _ => 0,
      cdf := buildCdf (normalized.map fun o => o.p), mean := 0 }
  else
    let scaled := scaledOf ops v rtpMean
    let maxScaled := jsMax (scaled.map fun o => o.m)
    let calibrated :=
      if template.max_multiplier_allowed < maxScaled then
        capAwareCalibration scaled rtpMean template.max_multiplier_allowed
      else scaled
    { multipliers := calibrated.map fun o => o.m,
      cdf := buildCdf (calibrated.map fun o => o.p),
      mean := meanMultiplier calibrated }

/-- The scan of sampleMultiplier: index of the first cdf entry at or above
the uniform value. -/
def sampleIdx (u : ℚ) : List ℚ → Option ℕ
  | [] => none
  | c :: rest => if u ≤ c then some 0 else (sampleIdx u rest).map (· + 1)

/-- sampleMultiplier applied to an already drawn uniform value: the
multiplier at the first matching index, or the last multiplier (0 when
empty) when no index matches. -/
def sampleMultiplierU (dist : CalibratedDistribution) (u : ℚ) : ℚ :=
  match sampleIdx u dist.cdf with
  | some i => dist.multipliers.getD i 0
  | none => dist.multipliers.getLast?.getD 0

/-- sampleMultiplier of the source: draw the uniform from the stream, then
scan. -/
def sampleMultiplier (dist : CalibratedDistribution) (rng : ℕ → ℚ) (pos : ℕ) : ℚ :=
  sampleMultiplierU dist (rng pos)

/-- Index of the first outcome with positive cumulative probability, the
notion used by the specification for the u = 0 case. -/
def firstPositive : List ℚ → Option ℕ
  | [] => none
  | c :: rest => if 0 < c then some 0 else (firstPositive rest).map (· + 1)

/- Helper lemmas about the sampler scan. -/

theorem sampleIdx_some_iff (u : ℚ) (cdf : List ℚ) : ∀ i : ℕ,
    sampleIdx u cdf = some i ↔
      i < cdf.length ∧ u ≤ cdf.getD i 0 ∧ ∀ j, j < i → ¬ u ≤ cdf.getD j 0 := by
  induction cdf with
  | nil => intro i; simp [sampleIdx]
  | cons c rest ih =>
    intro i
    by_cases h : u ≤ c
    · simp only [sampleIdx, if_pos h]
      constructor
      · intro h0
        injection h0 with h0
        subst h0
        exact ⟨by simp, by simpa using h, by omega⟩
      · rintro ⟨hi, hu, hmin⟩
        cases i with
        | zero => rfl
        | succ i => exact absurd (by simpa using h) (hmin 0 (Nat.succ_pos _))
    · simp only [sampleIdx, if_neg h]
      constructor
      · intro h0
        cases hi2 : sampleIdx u rest with
        | none => rw [hi2] at h0; simp at h0
        | some i2 =>
          rw [hi2] at h0
          simp at h0
          subst h0
          obtain ⟨h1, h2, h3⟩ := (ih i2).mp hi2
          refine ⟨by simpa using Nat.succ_lt_succ h1, by simpa using h2, ?_⟩
          intro j hj
          cases j with
          | zero => simpa using h
          | succ j => simpa using h3 j (by omega)
      · rintro ⟨hi, hu, hmin⟩
        cases i with
        | zero => exact absurd (by simpa using hu) h
        | succ i =>
          have hrec : sampleIdx u rest = some i := (ih i).mpr
            ⟨by simpa using hi, by simpa using hu,
              fun j hj => by simpa using hmin (j + 1) (by omega)⟩
          rw [hrec]
          rfl

theorem sampleIdx_none_iff (u : ℚ) (cdf : List ℚ) :
    sampleIdx u cdf = none ↔ ∀ j, j < cdf.length → ¬ u ≤ cdf.getD j 0 := by
  induction cdf with
  | nil => simp [sampleIdx]
  | cons c rest ih =>
    constructor
    · intro h0 j hj
      by_cases h : u ≤ c
      · simp [sampleIdx, h] at h0
      · cases j with
        | zero => simpa using h
        | succ j =>
          simp only [sampleIdx, if_neg h] at h0
          cases hi2 : sampleIdx u rest with
          | none => simpa using (ih.mp hi2) j (by simpa using hj)
          | some i2 => rw [hi2] at h0; simp at h0
    · intro hall
      have h : ¬ u ≤ c := by simpa using hall 0 (by simp)
      have hrec : sampleIdx u rest = none :=
        ih.mpr fun j hj => by simpa using hall (j + 1) (by simpa using hj)
      simp [sampleIdx, if_neg h, hrec]

theorem getLastD_eq_getD (l : List ℚ) (h : l ≠ []) :
    l.getLast?.getD 0 = l.getD (l.length - 1) 0 := by
  induction l with
  | nil => simp at h
  | cons x xs ih =>
    cases xs with
    | nil => simp
    | cons y ys =>
      have h2 := ih (by simp)
      simpa using h2

/-- C6 (amended): for every CalibratedDistribution with index-aligned
multipliers and cdf, sampleMultiplier returns the multiplier at the first
index with `u <= cdf[i]` and the last multiplier when no index matches;
with `u = 0` it returns the first outcome with positive cumulative
probability provided `cdf[0] > 0` (then index 0 is that outcome); and for
any `u` above every non-final cdf entry it returns the last multiplier. -/
theorem c6_sampleMultiplier_scan (dist : CalibratedDistribution) (u : ℚ)
    (hlen : dist.multipliers.length = dist.cdf.length) :
    (∀ i, i < dist.cdf.length → (∀ j, j < i → ¬ u ≤ dist.cdf.getD j 0) →
        u ≤ dist.cdf.getD i 0 → sampleMultiplierU dist u = dist.multipliers.getD i 0)
    ∧ ((∀ j, j < dist.cdf.length → ¬ u ≤ dist.cdf.getD j 0) →
        sampleMultiplierU dist u = dist.multipliers.getLast?.getD 0)
    ∧ (0 < dist.cdf.getD 0 0 → dist.cdf ≠ [] →
        firstPositive dist.cdf = some 0
          ∧ sampleMultiplierU dist 0 = dist.multipliers.getD 0 0)
    ∧ (dist.cdf ≠ [] → (∀ j, j + 1 < dist.cdf.length → dist.cdf.getD j 0 < u) →
        sampleMultiplierU dist u = dist.multipliers.getLast?.getD 0) := by
  refine ⟨?_, ?_, ?_, ?_⟩
  · intro i hi hmin hu
    have hidx : sampleIdx u dist.cdf = some i :=
      (sampleIdx_some_iff u dist.cdf i).mpr ⟨hi, hu, hmin⟩
    simp [sampleMultiplierU, hidx]
  · intro hall
    have hidx : sampleIdx u dist.cdf = none := (sampleIdx_none_iff u dist.cdf).mpr hall
    simp [sampleMultiplierU, hidx]
  · intro hpos hne
    cases hc : dist.cdf with
    | nil => exact absurd hc hne
    | cons c rest =>
      have hc0 : dist.cdf.getD 0 0 = c := by rw [hc]; simp
      rw [hc0] at hpos
      have hidx : sampleIdx 0 dist.cdf = some 0 := by
        rw [hc]
        simp [sampleIdx, hpos.le]
      refine ⟨?_, by simp [sampleMultiplierU, hidx]⟩
      simp [firstPositive, hpos]
  · intro hne hbig
    cases hidx : sampleIdx u dist.cdf with
    | none => simp [sampleMultiplierU, hidx]
    | some i =>
      obtain ⟨hi, hu, _⟩ := (sampleIdx_some_iff u dist.cdf i).mp hidx
      have hlast : i = dist.cdf.length - 1 := by
        by_contra hne2
        have : i + 1 < dist.cdf.length := by omega
        exact absurd hu (not_le.mpr (hbig i this))
      have hmne : dist.multipliers ≠ [] := by
        intro h0
        rw [h0] at hlen
        have : dist.cdf = [] := List.eq_nil_of_length_eq_zero hlen.symm
        exact hne this
      rw [getLastD_eq_getD dist.multipliers hmne, hlen]
      simp [sampleMultiplierU, hidx, hlast]

/-- Witness for c6_sampleMultiplier_scan at a concrete distribution. -/
theorem c6_sampleMultiplier_scan_witness :
    (([(1 : ℚ), 5] : List ℚ).length = ([(1 : ℚ)/2, 1] : List ℚ).length)
    ∧ ((∀ i, i < ([(1 : ℚ)/2, 1] : List ℚ).length →
          (∀ j, j < i → ¬ (3 : ℚ)/4 ≤ ([(1 : ℚ)/2, 1] : List ℚ).getD j 0) →
          (3 : ℚ)/4 ≤ ([(1 : ℚ)/2, 1] : List ℚ).getD i 0 →
          sampleMultiplierU ⟨[1, 5], [1/2, 1], 1⟩ (3/4)
            = ([(1 : ℚ), 5] : List ℚ).getD i 0)
        ∧ ((∀ j, j < ([(1 : ℚ)/2, 1] : List ℚ).length →
            ¬ (3 : ℚ)/4 ≤ ([(1 : ℚ)/2, 1] : List ℚ).getD j 0) →
          sampleMultiplierU ⟨[1, 5], [1/2, 1], 1⟩ (3/4)
            = ([(1 : ℚ), 5] : List ℚ).getLast?.getD 0)
        ∧ (0 < ([(1 : ℚ)/2, 1] : List ℚ).getD 0 0 → ([(1 : ℚ)/2, 1] : List ℚ) ≠ [] →
          firstPositive [(1 : ℚ)/2, 1] = some 0
            ∧ sampleMultiplierU ⟨[1, 5], [1/2, 1], 1⟩ 0 = ([(1 : ℚ), 5] : List ℚ).getD 0 0)
        ∧ (([(1 : ℚ)/2, 1] : List ℚ) ≠ [] →
          (∀ j, j + 1 < ([(1 : ℚ)/2, 1] : List ℚ).length →
            ([(1 : ℚ)/2, 1] : List ℚ).getD j 0 < (3 : ℚ)/4) →
          sampleMultiplierU ⟨[1, 5], [1/2, 1], 1⟩ (3/4)
            = ([(1 : ℚ), 5] : List ℚ).getLast?.getD 0)) :=
  ⟨by decide, c6_sampleMultiplier_scan ⟨[1, 5], [1/2, 1], 1⟩ (3/4) (by decide)⟩

/-- C6 counterexample: for the CalibratedDistribution with multipliers
[5, 7] and cdf [0, 1], the scan at u = 0 matches index 0 (whose cumulative
probability is zero) and returns 5, while the first outcome with positive
cumulative probability is index 1 with multiplier 7; so the u = 0 clause
of the claim fails on an arbitrary CalibratedDistribution. -/
theorem c6_sampleMultiplier_u0_counterexample :
    sampleMultiplierU ⟨[5, 7], [0, 1], 1⟩ 0 = 5
    ∧ firstPositive ([0, 1] : List ℚ) = some 1
    ∧ (([(5 : ℚ), 7] : List ℚ).getD 1 0 = 7)
    ∧ (5 : ℚ) ≠ 7 := by
  refine ⟨?_, ?_, ?_, by norm_num⟩ <;> decide

/-- A fixed RealOps instance with inert transcendental functions, used for
concrete evaluations in which their values are irrelevant or unreached. -/
def opsZero : RealOps := ⟨fun _ => 0, fun _ => 0, fun _ => 0, fun _ => 0, fun _ _ => 0, 0⟩

/-- C2 (amended): the computed CVaR(alpha) is the mean of the worst
`max(1, floor(n * alpha))` values of the ascending-sorted final-net
sequence, for alpha = 0.05 and alpha = 0.01 (the claim says ceil, the code
takes the floor); over 100 values CVaR(0.05) is still the mean of the 5
worst values, since floor and ceil agree there. -/
theorem c2_cvar_floor (ops : RealOps) (finalNets maxDrawdowns cashIns endingBalances : List ℚ)
    (sel : SelectedRuns) (_hne : finalNets ≠ []) :
    (jsSortAsc finalNets).Sorted (· ≤ ·)
    ∧ (jsSortAsc finalNets).Perm finalNets
    ∧ ((computeAggregate ops finalNets maxDrawdowns cashIns endingBalances sel).final_net.cvar_5
      = mean ((jsSortAsc finalNets).take
          (Nat.max 1 (⌊(finalNets.length : ℚ) * (5/100)⌋).toNat)))
    ∧ ((computeAggregate ops finalNets maxDrawdowns cashIns endingBalances sel).final_net.cvar_1
      = mean ((jsSortAsc finalNets).take
          (Nat.max 1 (⌊(finalNets.length : ℚ) * (1/100)⌋).toNat)))
    ∧ (finalNets.length = 100 →
      (computeAggregate ops finalNets maxDrawdowns cashIns endingBalances sel).final_net.cvar_5
        = mean ((jsSortAsc finalNets).take 5)) := by
  refine ⟨List.sorted_insertionSort _ _, List.perm_insertionSort _ _, rfl, rfl, fun h100 => ?_⟩
  have h5 : Nat.max 1 (⌊(finalNets.length : ℚ) * (5/100)⌋).toNat = 5 := by
    rw [h100]
    norm_num
    rfl
  show mean ((jsSortAsc finalNets).take
      (Nat.max 1 (⌊(finalNets.length : ℚ) * (5/100)⌋).toNat)) = _
  rw [h5]

/-- Witness for c2_cvar_floor at a concrete three-element run list. -/
theorem c2_cvar_floor_witness :
    (([(3 : ℚ), 1, 2] : List ℚ) ≠ [])
    ∧ ((jsSortAsc [3, 1, 2]).Sorted (· ≤ ·)
      ∧ (jsSortAsc [3, 1, 2]).Perm [3, 1, 2]
      ∧ ((computeAggregate opsZero [3, 1, 2] [] [] [] ⟨1, 1, []⟩).final_net.cvar_5
        = mean ((jsSortAsc [3, 1, 2]).take
            (Nat.max 1 (⌊(([(3 : ℚ), 1, 2] : List ℚ).length : ℚ) * (5/100)⌋).toNat)))
      ∧ ((computeAggregate opsZero [3, 1, 2] [] [] [] ⟨1, 1, []⟩).final_net.cvar_1
        = mean ((jsSortAsc [3, 1, 2]).take
            (Nat.max 1 (⌊(([(3 : ℚ), 1, 2] : List ℚ).length : ℚ) * (1/100)⌋).toNat)))
      ∧ (([(3 : ℚ), 1, 2] : List ℚ).length = 100 →
        (computeAggregate opsZero [3, 1, 2] [] [] [] ⟨1, 1, []⟩).final_net.cvar_5
          = mean ((jsSortAsc [3, 1, 2]).take 5))) :=
  ⟨by decide, c2_cvar_floor opsZero [3, 1, 2] [] [] [] ⟨1, 1, []⟩ (by decide)⟩

/-- The 21 ascending final nets 0, 1, ..., 20 of the C2 counterexample. -/
def finals21 : List ℚ :=
  [0, 1, 2, 3, 4, 5, 6, 7, 8, 9, 10, 11, 12, 13, 14, 15, 16, 17, 18, 19, 20]

/-- C2 counterexample: over the 21 final nets 0, 1, ..., 20 the code
computes CVaR(0.05) as the mean of the worst `max(1, floor(21 * 0.05)) = 1`
value, namely 0, while the claim demands the mean of the worst
`max(1, ceil(21 * 0.05)) = 2` values, namely 1/2. -/
theorem c2_cvar_ceil_counterexample :
    ((computeAggregate opsZero finals21 [] [] [] ⟨1, 1, []⟩).final_net.cvar_5 = 0)
    ∧ (mean ((jsSortAsc finals21).take
        (Nat.max 1 (⌈(finals21.length : ℚ) * (5/100)⌉).toNat)) = 1/2)
    ∧ (0 : ℚ) ≠ 1/2 := by
  have hsort : jsSortAsc finals21 = finals21 :=
    List.Sorted.insertionSort_eq (by decide)
  have hfloor : Nat.max 1 (⌊(finals21.length : ℚ) * (5/100)⌋).toNat = 1 := by
    norm_num [finals21]
  have hceil : Nat.max 1 (⌈(finals21.length : ℚ) * (5/100)⌉).toNat = 2 := by
    have h : ⌈(finals21.length : ℚ) * (5/100)⌉ = 2 := by
      rw [Int.ceil_eq_iff]
      constructor <;> norm_num [finals21]
    rw [h]
    rfl
  refine ⟨?_, ?_, by norm_num⟩
  · show mean ((jsSortAsc finals21).take
        (Nat.max 1 (⌊(finals21.length : ℚ) * (5/100)⌋).toNat)) = 0
    rw [hsort, hfloor]
    norm_num [finals21, mean]
  · rw [hsort, hceil]
    norm_num [finals21, mean]
    simp

/-- A total payout sampler that always pays zero, used to instantiate
session theorems at concrete inputs. -/
def oracleZero : ℚ → ℕ → Option (ℚ × ℕ) := fun _ pos => some (0, pos + 1)

/-- C4: a bet size of 0.004 currency units rounds to zero cents; for any
state short of a positive target, the session loop then returns none for
every fuel bound, payout sampler, deposit and state: the coin-in counter
never advances, so the loop never terminates, contradicting the zero-wager
guard the specification demands. -/
theorem c4_zero_wager_never_terminates (payoutOf : ℚ → ℕ → Option (ℚ × ℕ))
    (targetCents : ℤ) (d : ℚ) (hd : 0 < d) (fuel : ℕ) (st : SessState)
    (hlt : st.coinInCents < targetCents) :
    sessionLoop payoutOf (jsRound ((4/1000 : ℚ) * 100)) targetCents d hd fuel st = none := by
  have hbet : jsRound ((4/1000 : ℚ) * 100) = 0 := by
    unfold jsRound
    norm_num
  rw [hbet]
  induction fuel generalizing st with
  | zero => rfl
  | succ fuel ih =>
    have hrem : (0 : ℤ) < targetCents - st.coinInCents := by omega
    have hmin : min (0 : ℤ) (targetCents - st.coinInCents) = 0 := min_eq_left hrem.le
    simp only [sessionLoop, if_pos hlt, hmin]
    cases hp : payoutOf (((0 : ℤ) : ℚ) / 100) st.pos with
    | none => rfl
    | some pv =>
      simp only [Option.some_bind]
      exact ih _ (by simpa using hlt)

/-- Witness for c4_zero_wager_never_terminates at bet 0.004, target 1.00,
deposit 1, fuel 5. -/
theorem c4_zero_wager_never_terminates_witness :
    ((0 : ℚ) < 1) ∧ ((initSessState 1 0).coinInCents < 100)
    ∧ sessionLoop oracleZero (jsRound ((4/1000 : ℚ) * 100)) 100 1 (by norm_num) 5
        (initSessState 1 0) = none :=
  ⟨by norm_num, by norm_num [initSessState],
    c4_zero_wager_never_terminates oracleZero 100 1 (by norm_num) 5 (initSessState 1 0)
      (by norm_num [initSessState])⟩

/-- Ceiling of `t / b` for positive `b`: the spin count
`ceil(targetCents / betCents)` of the claim, as Euclidean division. -/
def ceilDivSpins (t b : ℤ) : ℕ := ((t + b - 1) / b).toNat

theorem ceilDivSpins_zero (b : ℤ) (hb : 1 ≤ b) : ceilDivSpins 0 b = 0 := by
  unfold ceilDivSpins
  rw [Int.ediv_eq_zero_of_lt (by omega) (by omega)]
  rfl

theorem ceilDivSpins_step (r b : ℤ) (hr : 0 < r) (hb : 1 ≤ b) :
    ceilDivSpins r b = 1 + ceilDivSpins (r - min b r) b := by
  have hsplit : (r + b - 1) / b = (r - 1) / b + 1 := by
    rw [show r + b - 1 = r - 1 + 1 * b by ring, Int.add_mul_ediv_right _ _ (by omega)]
  rcases le_or_lt r b with hrb | hrb
  · have hmin : min b r = r := min_eq_right hrb
    have h0 : (r - 1) / b = 0 := Int.ediv_eq_zero_of_lt (by omega) (by omega)
    rw [hmin]
    simp only [sub_self, ceilDivSpins_zero b hb]
    unfold ceilDivSpins
    rw [hsplit, h0]
    rfl
  · have hmin : min b r = b := min_eq_left hrb.le
    have hq : 0 ≤ (r - 1) / b := Int.ediv_nonneg (by omega) (by omega)
    have h2 : r - b + b - 1 = r - 1 := by ring
    unfold ceilDivSpins
    rw [hmin, hsplit, h2]
    omega

/-- Completion of the session loop from any state at or below the target,
with the exact spin count added: for a total payout sampler and a positive
per-spin wager, enough fuel completes the session with
`ceil(remaining / betCents)` further spins and coin-in landing exactly on
the target. -/
theorem sessionLoop_completes (payoutOf : ℚ → ℕ → Option (ℚ × ℕ))
    (htot : ∀ bet pos, ∃ pv, payoutOf bet pos = some pv)
    (betCents targetCents : ℤ) (hb : 1 ≤ betCents) (d : ℚ) (hd : 0 < d) :
    ∀ (fuel : ℕ) (st : SessState), st.coinInCents ≤ targetCents →
      ceilDivSpins (targetCents - st.coinInCents) betCents + 1 ≤ fuel →
      ∃ st2, sessionLoop payoutOf betCents targetCents d hd fuel st = some st2
        ∧ st2.spins = st.spins + ceilDivSpins (targetCents - st.coinInCents) betCents
        ∧ st2.coinInCents = targetCents := by
  intro fuel
  induction fuel with
  | zero => intro st _ hfuel; omega
  | succ fuel ih =>
    intro st hle hfuel
    by_cases hlt : st.coinInCents < targetCents
    · have hrem : (0 : ℤ) < targetCents - st.coinInCents := by omega
      obtain ⟨pv, hpv⟩ :=
        htot (((min betCents (targetCents - st.coinInCents) : ℤ) : ℚ) / 100) st.pos
      have hstep := ceilDivSpins_step (targetCents - st.coinInCents) betCents hrem hb
      have hminle : min betCents (targetCents - st.coinInCents) ≤ targetCents - st.coinInCents :=
        min_le_right _ _
      simp only [sessionLoop, if_pos hlt, hpv, Option.some_bind]
      obtain ⟨st2, h1, h2, h3⟩ := ih
        { coinInCents := st.coinInCents + min betCents (targetCents - st.coinInCents)
          totalPayout := st.totalPayout + pv.1
          net := st.net + (pv.1 - ((min betCents (targetCents - st.coinInCents) : ℤ) : ℚ) / 100)
          peakNet := if st.peakNet <
              st.net + (pv.1 - ((min betCents (targetCents - st.coinInCents) : ℤ) : ℚ) / 100) then
              st.net + (pv.1 - ((min betCents (targetCents - st.coinInCents) : ℤ) : ℚ) / 100)
            else st.peakNet
          maxDrawdown := _
          spins := st.spins + 1
          balance := _
          totalCashIn := _
          coinInHistory := _
          netHistory := _
          pos := pv.2 }
        (by simpa using by omega)
        (by
          show ceilDivSpins (targetCents -
            (st.coinInCents + min betCents (targetCents - st.coinInCents))) betCents + 1 ≤ fuel
          have harg : targetCents - (st.coinInCents + min betCents (targetCents - st.coinInCents))
              = targetCents - st.coinInCents - min betCents (targetCents - st.coinInCents) := by
            ring
          rw [harg]
          omega)
      refine ⟨st2, h1, ?_, h3⟩
      have harg : targetCents - (st.coinInCents + min betCents (targetCents - st.coinInCents))
          = targetCents - st.coinInCents - min betCents (targetCents - st.coinInCents) := by
        ring
      rw [h2]
      show st.spins + 1 + ceilDivSpins _ betCents = _
      rw [harg]
      omega
    · have heq : st.coinInCents = targetCents := by omega
      refine ⟨st, ?_, ?_, heq⟩
      · simp only [sessionLoop, if_neg hlt]
      · rw [heq]
        simp [ceilDivSpins_zero betCents hb]

/-- C5: for integer cent amounts betCents >= 1 and targetCents >= 0 and
any total payout sampler (so independent of the random draws), a session
started from the initial state performs exactly
`ceil(targetCents / betCents)` spins and its coin-in lands exactly on the
target, so total_coin_in equals targetCents/100 exactly. -/
theorem c5_spin_count (payoutOf : ℚ → ℕ → Option (ℚ × ℕ))
    (htot : ∀ bet pos, ∃ pv, payoutOf bet pos = some pv)
    (betCents targetCents : ℤ) (hb : 1 ≤ betCents) (ht : 0 ≤ targetCents)
    (d : ℚ) (hd : 0 < d) (pos0 fuel : ℕ)
    (hfuel : ceilDivSpins targetCents betCents + 1 ≤ fuel) :
    ∃ st, sessionLoop payoutOf betCents targetCents d hd fuel (initSessState d pos0) = some st
      ∧ st.spins = ceilDivSpins targetCents betCents
      ∧ st.coinInCents = targetCents
      ∧ (st.coinInCents : ℚ) / 100 = (targetCents : ℚ) / 100 := by
  obtain ⟨st2, h1, h2, h3⟩ := sessionLoop_completes payoutOf htot betCents targetCents hb d hd
    fuel (initSessState d pos0) (by simpa [initSessState] using ht)
    (by simpa [initSessState] using hfuel)
  refine ⟨st2, h1, ?_, h3, by rw [h3]⟩
  simpa [initSessState] using h2

/-- Witness for c5_spin_count at the claim scenario: bet 1.5 rounds to 150
cents, wagering target 12,500 rounds to 1,250,000 cents, and the session
performs exactly 8,334 spins. -/
theorem c5_spin_count_witness :
    (∀ bet pos, ∃ pv, oracleZero bet pos = some pv)
    ∧ (1 ≤ jsRound ((15/10 : ℚ) * 100))
    ∧ ((0 : ℤ) ≤ 1250000)
    ∧ (ceilDivSpins 1250000 (jsRound ((15/10 : ℚ) * 100)) + 1 ≤ 8335)
    ∧ (∃ st, sessionLoop oracleZero (jsRound ((15/10 : ℚ) * 100)) 1250000 1 (by norm_num) 8335
          (initSessState 1 0) = some st
        ∧ st.spins = ceilDivSpins 1250000 (jsRound ((15/10 : ℚ) * 100))
        ∧ st.coinInCents = 1250000
        ∧ (st.coinInCents : ℚ) / 100 = (1250000 : ℚ) / 100)
    ∧ ceilDivSpins 1250000 150 = 8334 := by
  have hj : jsRound ((15/10 : ℚ) * 100) = 150 := by
    unfold jsRound
    norm_num
  have hce : ceilDivSpins 1250000 150 = 8334 := by decide
  have htot : ∀ bet pos, ∃ pv, oracleZero bet pos = some pv :=
    fun bet pos => ⟨(0, pos + 1), rfl⟩
  refine ⟨htot, by rw [hj]; decide, by norm_num, by rw [hj, hce], ?_, hce⟩
  exact c5_spin_count oracleZero htot _ 1250000 (by rw [hj]; decide) (by norm_num) 1 (by norm_num)
    0 8335 (by rw [hj, hce])

/-- The top-up loop exits only once the balance is within the 1e-9
tolerance of the wager: its resulting balance is at least `bet - 1e-9`. -/
theorem topUp_fst_ge (d : ℚ) (hd : 0 < d) (bet balance cashIn : ℚ) :
    bet - epsPay ≤ (topUp d hd bet balance cashIn).1 := by
  rw [topUp]
  split
  · exact topUp_fst_ge d hd bet (balance + d) (cashIn + d)
  · rename_i h
    push_neg at h
    simpa using by linarith
termination_by (⌈(bet - epsPay - balance) / d⌉).toNat
decreasing_by
  rename_i h
  have key : (bet - epsPay - (balance + d)) / d = (bet - epsPay - balance) / d - 1 := by
    rw [show bet - epsPay - (balance + d) = (bet - epsPay - balance) - d by ring,
      sub_div, div_self hd.ne']
  have hpos : 0 < (bet - epsPay - balance) / d := div_pos (by linarith) hd
  have h1 : 0 < ⌈(bet - epsPay - balance) / d⌉ := Int.ceil_pos.mpr hpos
  simp only [key, Int.ceil_sub_one]
  omega

/-- When the balance already covers the wager within the tolerance, the
top-up loop is a no-op. -/
theorem topUp_noop (d : ℚ) (hd : 0 < d) (bet balance cashIn : ℚ)
    (h : ¬ balance + epsPay < bet) : topUp d hd bet balance cashIn = (balance, cashIn) := by
  rw [topUp]
  simp [h]

/-- C3 (amended): for any session with nonnegative payouts, the running
balance stays at or above -1e-9 throughout the loop (the invariant is
preserved into every recursive call) and in particular the ending balance
of a completed session is at least -1e-9.  Exact nonnegativity fails: the
top-up sufficiency check `balance + 1e-9 < bet` allows the subsequent
debit to push the balance below zero by up to the tolerance. -/
theorem c3_balance_above_neg_tolerance (payoutOf : ℚ → ℕ → Option (ℚ × ℕ))
    (hpay : ∀ bet pos pv, payoutOf bet pos = some pv → 0 ≤ pv.1)
    (betCents targetCents : ℤ) (d : ℚ) (hd : 0 < d) :
    ∀ (fuel : ℕ) (st st2 : SessState),
      sessionLoop payoutOf betCents targetCents d hd fuel st = some st2 →
      -epsPay ≤ st.balance → -epsPay ≤ st2.balance := by
  intro fuel
  induction fuel with
  | zero => intro st st2 h _; simp [sessionLoop] at h
  | succ fuel ih =>
    intro st st2 h hbal
    by_cases hlt : st.coinInCents < targetCents
    · simp only [sessionLoop, if_pos hlt] at h
      cases hp : payoutOf (((min betCents (targetCents - st.coinInCents) : ℤ) : ℚ) / 100)
          st.pos with
      | none => rw [hp] at h; simp at h
      | some pv =>
        rw [hp, Option.some_bind] at h
        refine ih _ _ h ?_
        show -epsPay ≤
          (topUp d hd (((min betCents (targetCents - st.coinInCents) : ℤ) : ℚ) / 100)
              st.balance st.totalCashIn).1
            - ((min betCents (targetCents - st.coinInCents) : ℤ) : ℚ) / 100 + pv.1
        have h1 := topUp_fst_ge d hd
          (((min betCents (targetCents - st.coinInCents) : ℤ) : ℚ) / 100)
          st.balance st.totalCashIn
        have h2 : 0 ≤ pv.1 := hpay _ _ _ hp
        linarith
    · simp only [sessionLoop, if_neg hlt] at h
      injection h with h
      rw [← h]
      exact hbal

/-- Witness for c3_balance_above_neg_tolerance at a zero-target session. -/
theorem c3_balance_above_neg_tolerance_witness :
    (∀ bet pos pv, oracleZero bet pos = some pv → 0 ≤ pv.1)
    ∧ (sessionLoop oracleZero 100 0 1 (by norm_num) 1 (initSessState 1 0)
        = some (initSessState 1 0))
    ∧ (-epsPay ≤ (initSessState 1 0).balance)
    ∧ (-epsPay ≤ (initSessState 1 0).balance) := by
  have hpay : ∀ bet pos pv, oracleZero bet pos = some pv → 0 ≤ pv.1 := by
    intro bet pos pv hpv
    simp [oracleZero] at hpv
    simp [← hpv]
  have hrun : sessionLoop oracleZero 100 0 1 (by norm_num) 1 (initSessState 1 0)
      = some (initSessState 1 0) := by
    norm_num [sessionLoop, initSessState]
  have hbal : -epsPay ≤ (initSessState 1 0).balance := by
    norm_num [initSessState, epsPay]
  exact ⟨hpay, hrun, hbal,
    c3_balance_above_neg_tolerance oracleZero hpay 100 0 1 (by norm_num) 1
      (initSessState 1 0) (initSessState 1 0) hrun hbal⟩

/-- A payout sampler whose first payout is one unit minus half the top-up
tolerance and whose later payouts are zero; all its values are reachable
payout amounts for suitable draws. -/
def oracleEps : ℚ → ℕ → Option (ℚ × ℕ) :=
  fun _ pos => some (if pos = 0 then 1 - 1/2000000000 else 0, pos + 1)

/-- C3 counterexample: with bet 1.00, target 2.00, deposit 1 and a first
payout of `1 - 5e-10`, the second spin passes the tolerance check without
a top-up and debits the balance to `-5e-10 < 0`; the session completes
with that negative balance, which pushRun records as ending_balance.  So
the running balance does go negative and ending_balance >= 0 fails. -/
theorem c3_negative_balance_counterexample :
    (sessionLoop oracleEps 100 200 1 (by norm_num) 3 (initSessState 1 0)
      = some { coinInCents := 200, totalPayout := 1999999999 / 2000000000,
               net := -(2000000001 / 2000000000), peakNet := 0,
               maxDrawdown := 2000000001 / 2000000000, spins := 2,
               balance := -(1 / 2000000000), totalCashIn := 1,
               coinInHistory := [0, 1, 2],
               netHistory := [0, -(1 / 2000000000), -(2000000001 / 2000000000)], pos := 2 })
    ∧ ((-(1 / 2000000000) : ℚ) < 0)
    ∧ ((pushRun [] 3 1
          { coinInCents := 200, totalPayout := 1999999999 / 2000000000,
            net := -(2000000001 / 2000000000), peakNet := 0,
            maxDrawdown := 2000000001 / 2000000000, spins := 2,
            balance := -(1 / 2000000000), totalCashIn := 1,
            coinInHistory := [0, 1, 2],
            netHistory := [0, -(1 / 2000000000), -(2000000001 / 2000000000)], pos := 2 }
          initRunAcc).runs.map fun rm => rm.ending_balance) = [-(1 / 2000000000)] := by
  refine ⟨?_, by norm_num, ?_⟩
  · norm_num [sessionLoop, initSessState, oracleEps, epsPay, topUp_noop]
  · norm_num [pushRun, initRunAcc, downsampleTrajectory, downsampleGo]

/- Helper lemmas for the cdf construction. -/

theorem buildCdfAux_length (ps : List ℚ) : ∀ acc, (buildCdfAux acc ps).length = ps.length := by
  induction ps with
  | nil => intro acc; rfl
  | cons p rest ih => intro acc; simp [buildCdfAux, ih]

theorem forceLastOne_length (l : List ℚ) : (forceLastOne l).length = l.length := by
  induction l with
  | nil => rfl
  | cons x xs ih =>
    cases xs with
    | nil => rfl
    | cons y ys => simpa [forceLastOne] using ih

theorem buildCdf_length (ps : List ℚ) : (buildCdf ps).length = ps.length := by
  rw [buildCdf, forceLastOne_length, buildCdfAux_length]

theorem buildCdfAux_ne_nil (a p : ℚ) (rest : List ℚ) : buildCdfAux a (p :: rest) ≠ [] := by
  simp [buildCdfAux]

theorem forceLastOne_cons_of_ne_nil (a : ℚ) (l : List ℚ) (h : l ≠ []) :
    forceLastOne (a :: l) = a :: forceLastOne l := by
  cases l with
  | nil => exact absurd rfl h
  | cons y ys => rfl

theorem forceLastOne_getLast (l : List ℚ) (h : l ≠ []) :
    (forceLastOne l).getLast? = some 1 := by
  induction l with
  | nil => exact absurd rfl h
  | cons x xs ih =>
    cases xs with
    | nil => rfl
    | cons y ys =>
      rw [forceLastOne_cons_of_ne_nil x (y :: ys) (by simp)]
      have hne : forceLastOne (y :: ys) ≠ [] := by
        cases ys <;> simp [forceLastOne]
      obtain ⟨a, L, hL⟩ := List.exists_cons_of_ne_nil hne
      rw [hL, List.getLast?_cons_cons, ← hL]
      exact ih (by simp)

theorem chain_forceLastOne_buildCdfAux : ∀ (ps : List ℚ) (acc : ℚ),
    (∀ p ∈ ps, 0 ≤ p) → acc + ps.sum ≤ 1 → acc ≤ 1 →
    List.Chain' (· ≤ ·) (acc :: forceLastOne (buildCdfAux acc ps)) := by
  intro ps
  induction ps with
  | nil => intro acc _ _ _; simp [buildCdfAux, forceLastOne]
  | cons p rest ih =>
    intro acc hp hsum hacc
    cases rest with
    | nil =>
      simp only [buildCdfAux, forceLastOne]
      refine List.chain'_cons.mpr ⟨hacc, ?_⟩
      simp
    | cons q rest2 =>
      have h0 : 0 ≤ q + rest2.sum := by
        have hs : ∀ x ∈ q :: rest2, 0 ≤ x := fun x hx => hp x (by simp [hx])
        simpa using List.sum_nonneg hs
      have hrec := ih (acc + p) (fun x hx => hp x (by simp [hx]))
        (by simp only [List.sum_cons] at hsum ⊢; linarith)
        (by simp only [List.sum_cons] at hsum; linarith)
      simp only [buildCdfAux] at hrec ⊢
      rw [forceLastOne_cons_of_ne_nil _ _ (by simp)]
      exact List.chain'_cons.mpr ⟨by linarith [hp p (by simp)], hrec⟩

theorem buildCdf_sorted (ps : List ℚ) (hp : ∀ p ∈ ps, 0 ≤ p) (hsum : ps.sum ≤ 1) :
    List.Sorted (· ≤ ·) (buildCdf ps) := by
  have h := chain_forceLastOne_buildCdfAux ps 0 hp (by simpa using hsum) (by norm_num)
  rw [buildCdf]
  exact List.chain'_iff_pairwise.mp h.tail

theorem buildCdf_getLast (ps : List ℚ) (h : ps ≠ []) : (buildCdf ps).getLast? = some 1 := by
  rw [buildCdf]
  apply forceLastOne_getLast
  cases ps with
  | nil => exact absurd rfl h
  | cons a l => exact buildCdfAux_ne_nil 0 a l

/- Probability preservation through the cap-aware calibration. -/

theorem capUpdate_map_p (factor maxAllowed : ℚ) : ∀ (l : List PM) (bs : List Bool),
    ((capUpdate factor maxAllowed l bs).1.map fun o => o.p) = l.map fun o => o.p := by
  intro l
  induction l with
  | nil => intro bs; cases bs <;> simp [capUpdate]
  | cons o os ih =>
    intro bs
    cases bs with
    | nil => simp [capUpdate]
    | cons b bs2 =>
      simp only [capUpdate]
      split_ifs <;> simp [ih bs2]

theorem capIter_map_p (r m : ℚ) : ∀ (g : ℕ) (cal : List PM) (adj : List Bool) (delta : ℚ),
    ((capIter r m g cal adj delta).map fun o => o.p) = cal.map fun o => o.p := by
  intro g
  induction g with
  | zero => intro cal adj delta; rfl
  | succ g ih =>
    intro cal adj delta
    simp only [capIter]
    split_ifs
    · rfl
    · rfl
    · rw [ih]
      exact capUpdate_map_p _ _ cal adj
    · exact capUpdate_map_p _ _ cal adj

theorem capAware_map_p (l : List PM) (r m : ℚ) :
    ((capAwareCalibration l r m).map fun o => o.p) = l.map fun o => o.p := by
  simp only [capAwareCalibration]
  split_ifs
  · simp [List.map_map]
  · rw [capIter_map_p]
    simp [List.map_map]

/- Normalization lemmas. -/

theorem sum_map_div_outcome (l : List Outcome) (t : ℚ) :
    (l.map fun o => o.p / t).sum = (l.map fun o => o.p).sum / t := by
  induction l with
  | nil => simp
  | cons o os ih => simp [ih, add_div]

theorem normalizeOutcomes_nonneg (l : List Outcome) (h : ∀ o ∈ l, 0 ≤ o.p) :
    ∀ o ∈ normalizeOutcomes l, 0 ≤ o.p := by
  simp only [normalizeOutcomes]
  split_ifs with ht
  · exact h
  · intro o ho
    rw [List.mem_map] at ho
    obtain ⟨o2, ho2, rfl⟩ := ho
    have htot : 0 ≤ (l.map fun o => o.p).sum := by
      apply List.sum_nonneg
      intro x hx
      rw [List.mem_map] at hx
      obtain ⟨o3, ho3, rfl⟩ := hx
      exact h o3 ho3
    exact div_nonneg (h o2 ho2) htot

theorem normalizeOutcomes_sum (l : List Outcome) (h : ∀ o ∈ l, 0 ≤ o.p) :
    ((normalizeOutcomes l).map fun o => o.p).sum = 1
      ∨ ∀ o ∈ normalizeOutcomes l, o.p = 0 := by
  by_cases ht : (l.map fun o => o.p).sum = 0
  · right
    simp only [normalizeOutcomes, if_pos ht]
    intro o ho
    have h1 : o.p ≤ (l.map fun o => o.p).sum := by
      apply List.single_le_sum
      · intro x hx
        rw [List.mem_map] at hx
        obtain ⟨o3, ho3, rfl⟩ := hx
        exact h o3 ho3
      · exact List.mem_map_of_mem _ ho
    have h2 := h o ho
    rw [ht] at h1
    linarith
  · left
    simp only [normalizeOutcomes, if_neg ht, List.map_map]
    have hcomp : ((fun o : Outcome => o.p) ∘ fun o : Outcome =>
        (⟨o.m_base, o.p / (l.map fun o => o.p).sum⟩ : Outcome))
        = fun o : Outcome => o.p / (l.map fun o => o.p).sum := rfl
    rw [hcomp, sum_map_div_outcome, div_self ht]

theorem normalizeOutcomes_ne_nil (l : List Outcome) (h : l ≠ []) :
    normalizeOutcomes l ≠ [] := by
  simp only [normalizeOutcomes]
  split_ifs
  · exact h
  · simpa using h

/- Tier template facts. -/

theorem buildBucketedOutcomes_p_nonneg (ops : RealOps)
    (hexp : ∀ x, 0 ≤ ops.exp x) (hpow : ∀ x y, 0 ≤ ops.pow x y)
    (config : BucketConfig) (hz : 0 ≤ config.zero_probability)
    (hz1 : config.zero_probability ≤ 1) (htw : 0 ≤ config.tail_weight) :
    ∀ o ∈ buildBucketedOutcomes ops config, 0 ≤ o.p := by
  intro o ho
  simp only [buildBucketedOutcomes] at ho
  split_ifs at ho with hw
  · simp only [List.mem_singleton] at ho
    rw [ho]
    exact hz
  · push_neg at hw
    rcases List.mem_cons.mp ho with h0 | hmem
    · rw [h0]
      exact hz
    · rw [List.mem_map] at hmem
      obtain ⟨pr, hpr, rfl⟩ := hmem
      rw [List.mem_map] at hpr
      obtain ⟨i, _, rfl⟩ := hpr
      show 0 ≤ (_ + config.tail_weight * ops.pow _ _) * _
      apply mul_nonneg
      · exact add_nonneg (hexp _) (mul_nonneg htw (hpow _ _))
      · exact div_nonneg (by linarith) hw.le

theorem buildBucketedOutcomes_ne_nil (ops : RealOps) (config : BucketConfig) :
    buildBucketedOutcomes ops config ≠ [] := by
  simp only [buildBucketedOutcomes]
  split_ifs <;> simp

theorem templates_p_nonneg (ops : RealOps)
    (hexp : ∀ x, 0 ≤ ops.exp x) (hpow : ∀ x y, 0 ≤ ops.pow x y) (v : Volatility) :
    ∀ o ∈ (VOLATILITY_TEMPLATES ops v).outcomes, 0 ≤ o.p := by
  cases v <;>
    exact buildBucketedOutcomes_p_nonneg ops hexp hpow _ (by norm_num) (by norm_num)
      (by norm_num)

theorem templates_ne_nil (ops : RealOps) (v : Volatility) :
    (VOLATILITY_TEMPLATES ops v).outcomes ≠ [] := by
  cases v <;> exact buildBucketedOutcomes_ne_nil ops _

theorem scaledOf_map_p (ops : RealOps) (v : Volatility) (rtpMean : ℚ) :
    ((scaledOf ops v rtpMean).map fun o => o.p) = (normalizedOf ops v).map fun o => o.p := by
  simp only [scaledOf, List.map_map]
  rfl

/-- C7: for every tier and every target return, the calibrated
distribution has index-aligned multipliers and cdf, a non-decreasing cdf,
and a final cdf value of exactly 1.  The transcendental operations are
assumed pointwise nonnegative where the source uses Math.exp and
Math.pow on positive bases. -/
theorem c7_calibrated_distribution_invariants (ops : RealOps)
    (hexp : ∀ x, 0 ≤ ops.exp x) (hpow : ∀ x y, 0 ≤ ops.pow x y)
    (v : Volatility) (rtpMean : ℚ) :
    ((buildCalibratedDistribution ops v rtpMean).multipliers.length
      = (buildCalibratedDistribution ops v rtpMean).cdf.length)
    ∧ List.Sorted (· ≤ ·) (buildCalibratedDistribution ops v rtpMean).cdf
    ∧ (buildCalibratedDistribution ops v rtpMean).cdf.getLast? = some 1 := by
  have htpl := templates_p_nonneg ops hexp hpow v
  have hnn : ∀ o ∈ normalizedOf ops v, 0 ≤ o.p := normalizeOutcomes_nonneg _ htpl
  have hsum := normalizeOutcomes_sum _ htpl
  have hne : normalizedOf ops v ≠ [] := normalizeOutcomes_ne_nil _ (templates_ne_nil ops v)
  have hpnn : ∀ p ∈ (normalizedOf ops v).map fun o => o.p, 0 ≤ p := by
    intro p hp
    rw [List.mem_map] at hp
    obtain ⟨o, ho, rfl⟩ := hp
    exact hnn o ho
  have hple : ((normalizedOf ops v).map fun o => o.p).sum ≤ 1 := by
    rcases hsum with h | h
    · exact le_of_eq h
    · rw [List.sum_eq_zero]
      · norm_num
      · intro x hx
        rw [List.mem_map] at hx
        obtain ⟨o, ho, rfl⟩ := hx
        exact h o ho
  have hmapne : ((normalizedOf ops v).map fun o => o.p) ≠ [] := by
    simpa using hne
  simp only [buildCalibratedDistribution]
  split_ifs with hmu hcap
  · refine ⟨by simp [buildCdf_length], ?_, ?_⟩
    · exact buildCdf_sorted _ hpnn hple
    · exact buildCdf_getLast _ hmapne
  · have hcal : ((capAwareCalibration (scaledOf ops v rtpMean) rtpMean
        (VOLATILITY_TEMPLATES ops v).max_multiplier_allowed).map fun o => o.p)
        = (normalizedOf ops v).map fun o => o.p := by
      rw [capAware_map_p, scaledOf_map_p]
    refine ⟨?_, ?_, ?_⟩
    · have h1 : (capAwareCalibration (scaledOf ops v rtpMean) rtpMean
          (VOLATILITY_TEMPLATES ops v).max_multiplier_allowed).length
          = (normalizedOf ops v).length := by
        have := congrArg List.length hcal
        simpa using this
      simp [buildCdf_length]
    · rw [hcal]
      exact buildCdf_sorted _ hpnn hple
    · rw [hcal]
      exact buildCdf_getLast _ hmapne
  · refine ⟨by simp [buildCdf_length], ?_, ?_⟩
    · rw [scaledOf_map_p]
      exact buildCdf_sorted _ hpnn hple
    · rw [scaledOf_map_p]
      exact buildCdf_getLast _ hmapne

/-- A fixed RealOps instance whose exp is constantly one and whose other
operations are constantly zero; it keeps every abstracted operation
pointwise nonnegative. -/
def opsOne : RealOps := ⟨fun _ => 1, fun _ => 0, fun _ => 0, fun _ => 0, fun _ _ => 0, 0⟩

/-- Witness for c7_calibrated_distribution_invariants at opsOne, the LOW
tier and target return 1/2. -/
theorem c7_calibrated_distribution_invariants_witness :
    (∀ x, 0 ≤ opsOne.exp x) ∧ (∀ x y, 0 ≤ opsOne.pow x y)
    ∧ (((buildCalibratedDistribution opsOne .LOW (1/2)).multipliers.length
        = (buildCalibratedDistribution opsOne .LOW (1/2)).cdf.length)
      ∧ List.Sorted (· ≤ ·) (buildCalibratedDistribution opsOne .LOW (1/2)).cdf
      ∧ (buildCalibratedDistribution opsOne .LOW (1/2)).cdf.getLast? = some 1) :=
  ⟨fun x => by norm_num [opsOne], fun x y => by norm_num [opsOne],
    c7_calibrated_distribution_invariants opsOne (fun x => by norm_num [opsOne])
      (fun x y => by norm_num [opsOne]) .LOW (1/2)⟩

theorem sum_map_scale (l : List Outcome) (k : ℚ) :
    (l.map fun o => o.p * (o.m_base * k)).sum = ((l.map fun o => o.p * o.m_base).sum) * k := by
  induction l with
  | nil => simp
  | cons o os ih =>
    simp only [List.map_cons, List.sum_cons, ih]
    ring

/-- C8: when the base mean is positive and the uniformly scaled set stays
at or below the tier cap (no capping in effect), the mean of the
calibrated distribution equals the target return r in (0,1] within 1e-6
(in exact arithmetic it is equal on the nose). -/
theorem c8_mean_matches_target_uncapped (ops : RealOps) (v : Volatility) (r : ℚ)
    (_hr0 : 0 < r) (_hr1 : r ≤ 1) (hmu : 0 < muBaseOf ops v)
    (hcap : jsMax ((scaledOf ops v r).map fun o => o.m)
      ≤ (VOLATILITY_TEMPLATES ops v).max_multiplier_allowed) :
    |(buildCalibratedDistribution ops v r).mean - r| ≤ 1/1000000 := by
  have hmean : (buildCalibratedDistribution ops v r).mean = r := by
    simp only [buildCalibratedDistribution, if_neg (not_le.mpr hmu), if_neg (not_lt.mpr hcap)]
    show meanMultiplier (scaledOf ops v r) = r
    rw [meanMultiplier, scaledOf, List.map_map]
    have hcomp : ((fun o : PM => o.p * o.m) ∘ fun o : Outcome =>
        (⟨o.p, o.m_base * (r / muBaseOf ops v)⟩ : PM))
        = fun o : Outcome => o.p * (o.m_base * (r / muBaseOf ops v)) := rfl
    rw [hcomp, sum_map_scale]
    show muBaseOf ops v * (r / muBaseOf ops v) = r
    field_simp
  rw [hmean]
  norm_num

/- Concrete evaluation of the LOW tier under opsOne, for the C8 witness. -/

theorem template_opsOne_LOW :
    (VOLATILITY_TEMPLATES opsOne .LOW).outcomes
      = ⟨0, 11/20⟩ :: List.replicate 80 ⟨1, 9/1600⟩ := by
  simp only [VOLATILITY_TEMPLATES, buildBucketedTemplate, buildBucketedOutcomes, opsOne,
    BUCKET_COUNT]
  rw [List.map_const']
  simp only [List.length_range, List.map_replicate, List.sum_replicate, smul_eq_mul]
  norm_num

theorem normalized_opsOne_LOW :
    normalizedOf opsOne .LOW = ⟨0, 11/20⟩ :: List.replicate 80 ⟨1, 9/1600⟩ := by
  rw [normalizedOf, template_opsOne_LOW]
  simp only [normalizeOutcomes, List.map_cons, List.sum_cons, List.map_replicate,
    List.sum_replicate]
  norm_num

theorem muBase_opsOne_LOW : muBaseOf opsOne .LOW = 9/20 := by
  rw [muBaseOf, normalized_opsOne_LOW]
  simp only [List.map_cons, List.sum_cons, List.map_replicate, List.sum_replicate]
  norm_num

theorem foldl_max_replicate (n : ℕ) (a b : ℚ) :
    (List.replicate n b).foldl max a = if n = 0 then a else max a b := by
  induction n generalizing a with
  | zero => simp
  | succ n ih =>
    simp only [List.replicate_succ, List.foldl_cons, ih]
    cases n with
    | zero => simp
    | succ m => simp [max_assoc]

theorem scaled_m_opsOne_LOW :
    ((scaledOf opsOne .LOW (9/20)).map fun o => o.m) = 0 :: List.replicate 80 1 := by
  rw [scaledOf, normalized_opsOne_LOW, muBase_opsOne_LOW]
  simp only [List.map_cons, List.map_map, List.map_replicate]
  norm_num

theorem jsMax_scaled_opsOne_LOW :
    jsMax ((scaledOf opsOne .LOW (9/20)).map fun o => o.m) = 1 := by
  rw [scaled_m_opsOne_LOW, jsMax, foldl_max_replicate]
  norm_num

/-- Witness for c8_mean_matches_target_uncapped at opsOne, the LOW tier
and target return 9/20 (no capping: the maximum scaled multiplier is 1,
far below the LOW cap of 1000). -/
theorem c8_mean_matches_target_uncapped_witness :
    ((0 : ℚ) < 9/20) ∧ ((9/20 : ℚ) ≤ 1) ∧ (0 < muBaseOf opsOne .LOW)
    ∧ (jsMax ((scaledOf opsOne .LOW (9/20)).map fun o => o.m)
        ≤ (VOLATILITY_TEMPLATES opsOne .LOW).max_multiplier_allowed)
    ∧ |(buildCalibratedDistribution opsOne .LOW (9/20)).mean - 9/20| ≤ 1/1000000 := by
  have hmu : 0 < muBaseOf opsOne .LOW := by
    rw [muBase_opsOne_LOW]
    norm_num
  have hcapv : (VOLATILITY_TEMPLATES opsOne .LOW).max_multiplier_allowed = 1000 := rfl
  have hcap : jsMax ((scaledOf opsOne .LOW (9/20)).map fun o => o.m)
      ≤ (VOLATILITY_TEMPLATES opsOne .LOW).max_multiplier_allowed := by
    rw [jsMax_scaled_opsOne_LOW, hcapv]
    norm_num
  exact ⟨by norm_num, by norm_num, hmu, hcap,
    c8_mean_matches_target_uncapped opsOne .LOW (9/20) (by norm_num) (by norm_num) hmu hcap⟩

/- Nonnegativity of the raw multiplier draw. -/

theorem gammaCore_nonneg (ops : RealOps) (rng : ℕ → ℚ) (k : ℚ) (hk : 1/3 ≤ k) :
    ∀ (fuel pos : ℕ) (r : ℚ) (p2 : ℕ),
      gammaCore ops rng k fuel pos = some (r, p2) → 0 ≤ r := by
  intro fuel
  induction fuel with
  | zero => intro pos r p2 h; simp [gammaCore] at h
  | succ fuel ih =>
    intro pos r p2 h
    simp only [gammaCore] at h
    cases hn : randomNormal ops rng (fuel + 1) pos with
    | none => rw [hn] at h; simp at h
    | some xv =>
      rw [hn, Option.some_bind] at h
      split_ifs at h with h1 h2 h3
      · exact ih _ _ _ h
      · simp only [Option.some_inj, Prod.mk.injEq] at h
        rw [← h.1]
        push_neg at h1
        have hv : (0 : ℚ) ≤ (1 + (1 / ops.sqrt (9 * (k - 1/3))) * xv.1)
            * (1 + (1 / ops.sqrt (9 * (k - 1/3))) * xv.1)
            * (1 + (1 / ops.sqrt (9 * (k - 1/3))) * xv.1) := by positivity
        exact mul_nonneg (by linarith) hv
      · simp only [Option.some_inj, Prod.mk.injEq] at h
        rw [← h.1]
        push_neg at h1
        have hv : (0 : ℚ) ≤ (1 + (1 / ops.sqrt (9 * (k - 1/3))) * xv.1)
            * (1 + (1 / ops.sqrt (9 * (k - 1/3))) * xv.1)
            * (1 + (1 / ops.sqrt (9 * (k - 1/3))) * xv.1) := by positivity
        exact mul_nonneg (by linarith) hv
      · exact ih _ _ _ h

theorem gammaSample_nonneg (ops : RealOps) (rng : ℕ → ℚ) (k : ℚ) (hk : 1 ≤ k)
    (fuel pos : ℕ) (r : ℚ) (p2 : ℕ)
    (h : gammaSample ops rng k fuel pos = some (r, p2)) : 0 ≤ r := by
  rw [gammaSample, if_neg (not_lt.mpr hk)] at h
  exact gammaCore_nonneg ops rng k (by linarith) fuel pos r p2 h

theorem rawMultiplier_nonneg (ops : RealOps) (hexp : ∀ x, 0 ≤ ops.exp x)
    (rng : ℕ → ℚ) (v : Volatility) (fuel pos : ℕ) (r : ℚ) (p2 : ℕ)
    (h : rawMultiplier ops rng (VOLATILITY_SETTINGS v) fuel pos = some (r, p2)) : 0 ≤ r := by
  cases v
  case LOW =>
    simp only [rawMultiplier, VOLATILITY_SETTINGS] at h
    cases hg : gammaSample ops rng 6 fuel pos with
    | none => rw [hg] at h; simp at h
    | some gv =>
      rw [hg] at h
      simp only [Option.map_some', Option.some_inj, Prod.mk.injEq] at h
      rw [← h.1]
      exact mul_nonneg (gammaSample_nonneg ops rng 6 (by norm_num) fuel pos gv.1 gv.2
        (by rw [hg])) (by norm_num)
  case MEDIUM =>
    simp only [rawMultiplier, VOLATILITY_SETTINGS] at h
    cases hg : gammaSample ops rng 2 fuel pos with
    | none => rw [hg] at h; simp at h
    | some gv =>
      rw [hg] at h
      simp only [Option.map_some', Option.some_inj, Prod.mk.injEq] at h
      rw [← h.1]
      exact mul_nonneg (gammaSample_nonneg ops rng 2 (by norm_num) fuel pos gv.1 gv.2
        (by rw [hg])) (by norm_num)
  case HIGH =>
    simp only [rawMultiplier, VOLATILITY_SETTINGS] at h
    cases hg : randomNormal ops rng fuel pos with
    | none => rw [hg] at h; simp at h
    | some nv =>
      rw [hg] at h
      simp only [Option.map_some', Option.some_inj, Prod.mk.injEq] at h
      rw [← h.1]
      exact hexp _

/-- C10: samplePayout pays in `[0, bet * cap * capAdjustment]` (the tier
cap bounds the clamped multiplier, which is then multiplied by the cap
adjustment), and whenever the raw draw pushes the scaled multiplier above
the cap the payout is exactly `bet * cap * capAdjustment`, which strictly
exceeds `bet * cap` when capAdjustment > 1 and bet > 0: the cap is applied
before the adjustment factor. -/
theorem c10_samplePayout_cap_before_adjustment (ops : RealOps)
    (hexp : ∀ x, 0 ≤ ops.exp x) (rng : ℕ → ℚ) (v : Volatility)
    (muNonzero capAdjustment bet : ℚ)
    (hmu : 0 ≤ muNonzero) (hca : 0 ≤ capAdjustment) (hbet : 0 ≤ bet) :
    (∀ fuel pos p pos2,
        samplePayout ops (VOLATILITY_SETTINGS v) muNonzero capAdjustment rng fuel bet pos
          = some (p, pos2) →
        0 ≤ p ∧ p ≤ bet * ((VOLATILITY_SETTINGS v).cap * capAdjustment))
    ∧ (∀ fuel pos r pos2,
        (VOLATILITY_SETTINGS v).p0 ≤ rng pos →
        rawMultiplier ops rng (VOLATILITY_SETTINGS v) fuel (pos + 1) = some (r, pos2) →
        (VOLATILITY_SETTINGS v).cap < muNonzero * r →
        samplePayout ops (VOLATILITY_SETTINGS v) muNonzero capAdjustment rng fuel bet pos
            = some (bet * ((VOLATILITY_SETTINGS v).cap * capAdjustment), pos2)
          ∧ (1 < capAdjustment → 0 < bet →
              bet * (VOLATILITY_SETTINGS v).cap
                < bet * ((VOLATILITY_SETTINGS v).cap * capAdjustment))) := by
  have hcap : 0 < (VOLATILITY_SETTINGS v).cap := by
    cases v <;> norm_num [VOLATILITY_SETTINGS]
  constructor
  · intro fuel pos p pos2 h
    simp only [samplePayout] at h
    split_ifs at h with h0
    · simp only [Option.some_inj, Prod.mk.injEq] at h
      rw [← h.1]
      exact ⟨le_refl 0, by positivity⟩
    · cases hr : rawMultiplier ops rng (VOLATILITY_SETTINGS v) fuel (pos + 1) with
      | none => rw [hr] at h; simp at h
      | some rv =>
        rw [hr] at h
        simp only [Option.map_some', Option.some_inj, Prod.mk.injEq] at h
        have hraw : 0 ≤ rv.1 := rawMultiplier_nonneg ops hexp rng v fuel (pos + 1) rv.1 rv.2
          (by rw [hr])
        rw [← h.1]
        by_cases hc : (VOLATILITY_SETTINGS v).cap < muNonzero * rv.1
        · rw [if_pos hc]
          exact ⟨by positivity, le_refl _⟩
        · rw [if_neg hc]
          push_neg at hc
          constructor
          · have : 0 ≤ muNonzero * rv.1 := mul_nonneg hmu hraw
            positivity
          · apply mul_le_mul_of_nonneg_left _ hbet
            exact mul_le_mul_of_nonneg_right hc hca
  · intro fuel pos r pos2 hp0 hr hover
    have hns : ¬ rng pos < (VOLATILITY_SETTINGS v).p0 := not_lt.mpr hp0
    constructor
    · simp only [samplePayout, if_neg hns, hr, Option.map_some', if_pos hover]
    · intro h1 h2
      have := mul_lt_mul_of_pos_left h1 hcap
      calc bet * (VOLATILITY_SETTINGS v).cap
          = bet * ((VOLATILITY_SETTINGS v).cap * 1) := by ring
        _ < bet * ((VOLATILITY_SETTINGS v).cap * capAdjustment) := by
            apply mul_lt_mul_of_pos_left _ h2
            simpa using this

/-- A fixed RealOps whose exp is constantly one million, large enough to
drive the HIGH-tier lognormal draw over the cap. -/
def opsBig : RealOps := ⟨fun _ => 1000000, fun _ => 0, fun _ => 0, fun _ => 0, fun _ _ => 0, 0⟩

/-- A constant stream at 9/10, above the HIGH-tier zero probability. -/
def rngNine : ℕ → ℚ := fun _ => 9/10

/-- Witness for c10_samplePayout_cap_before_adjustment on the HIGH tier
with muNonzero 5, capAdjustment 2 and bet 1, together with a concrete
capped draw: the raw multiplier evaluates to one million, whose scaled
value exceeds the cap of 2000. -/
theorem c10_samplePayout_cap_before_adjustment_witness :
    (∀ x, 0 ≤ opsBig.exp x) ∧ ((0 : ℚ) ≤ 5) ∧ ((0 : ℚ) ≤ 2) ∧ ((0 : ℚ) ≤ 1)
    ∧ ((∀ fuel pos p pos2,
          samplePayout opsBig (VOLATILITY_SETTINGS .HIGH) 5 2 rngNine fuel 1 pos
            = some (p, pos2) →
          0 ≤ p ∧ p ≤ 1 * ((VOLATILITY_SETTINGS .HIGH).cap * 2))
      ∧ (∀ fuel pos r pos2,
          (VOLATILITY_SETTINGS .HIGH).p0 ≤ rngNine pos →
          rawMultiplier opsBig rngNine (VOLATILITY_SETTINGS .HIGH) fuel (pos + 1)
            = some (r, pos2) →
          (VOLATILITY_SETTINGS .HIGH).cap < 5 * r →
          samplePayout opsBig (VOLATILITY_SETTINGS .HIGH) 5 2 rngNine fuel 1 pos
              = some (1 * ((VOLATILITY_SETTINGS .HIGH).cap * 2), pos2)
            ∧ ((1 : ℚ) < 2 → (0 : ℚ) < 1 →
                1 * (VOLATILITY_SETTINGS .HIGH).cap
                  < 1 * ((VOLATILITY_SETTINGS .HIGH).cap * 2))))
    ∧ ((VOLATILITY_SETTINGS .HIGH).p0 ≤ rngNine 0)
    ∧ (rawMultiplier opsBig rngNine (VOLATILITY_SETTINGS .HIGH) 1 1 = some (1000000, 3))
    ∧ ((VOLATILITY_SETTINGS .HIGH).cap < (5 : ℚ) * 1000000) := by
  refine ⟨fun x => by norm_num [opsBig], by norm_num, by norm_num, by norm_num,
    c10_samplePayout_cap_before_adjustment opsBig (fun x => by norm_num [opsBig]) rngNine
      .HIGH 5 2 1 (by norm_num) (by norm_num) (by norm_num),
    by norm_num [VOLATILITY_SETTINGS, rngNine], ?_, by norm_num [VOLATILITY_SETTINGS]⟩
  norm_num [rawMultiplier, randomNormal, drawNonzero, VOLATILITY_SETTINGS, opsBig, rngNine]

/-- The result of a run without its call-dependent meta fields: inputs,
aggregate, run metrics and trajectories. -/
def stripMeta (r : SimResult) : SimInputs × AggregateMetrics × List RunMetrics × Trajectories :=
  (r.inputs, r.aggregate, r.runs, r.trajectories)

theorem option_map_bind {α β γ : Type} (x : Option α) (f : α → Option β) (g : β → γ) :
    (x.bind f).map g = x.bind fun a => (f a).map g := by
  cases x <;> rfl

/-- C1 (amended): with identical inputs and an identical non-empty seed
string, two invocations agree on everything except the meta block: the
RunMetrics sequences, the aggregate and the trajectories are identical,
whatever the ambient Math.random stream, randomUUID value and clock
reading of each invocation.  (Full SimulationResult equality fails; see
the counterexample: meta.id is a fresh random UUID per call.) -/
theorem c1_deterministic_except_meta (ops : RealOps) (fuel sessFuel : ℕ)
    (inputs : SimInputs) (s : List ℕ) (hs : inputs.seed = some s) (hne : s ≠ [])
    (sysA sysB : ℕ → ℚ) (f : ℕ → Bool) (uuidA uuidB nowA nowB : ℕ) :
    (runSimulation ops fuel sessFuel inputs sysA f uuidA nowA).map stripMeta
      = (runSimulation ops fuel sessFuel inputs sysB f uuidB nowB).map stripMeta := by
  cases s with
  | nil => exact absurd rfl hne
  | cons c cs =>
    simp only [runSimulation, hs, createRng, capSeedChars, List.cons_append]
    rw [option_map_bind, option_map_bind]
    apply congrArg (Option.bind _)
    funext capAdjustment
    rw [Option.map_map, Option.map_map]
    apply congrArg (Option.map _)
    rfl

/- Arithmetic facts about the mulberry32 mix: its output is zero exactly
when the 32-bit state is zero, hence zeros in the stream are isolated
(the odd increment cannot hit a multiple of 2^32 twice in a row). -/

theorem M32_eq : M32 = 2 ^ 32 := by norm_num [M32]

theorem xor_shiftRight_eq_zero_iff (x k : ℕ) (hk : 1 ≤ k) :
    x ^^^ (x >>> k) = 0 ↔ x = 0 := by
  constructor
  · intro h
    have hx : x = x >>> k := Nat.xor_eq_zero.mp h
    rw [Nat.shiftRight_eq_div_pow] at hx
    by_contra hne
    have hpos : 0 < x := Nat.pos_of_ne_zero hne
    have h2 : x / 2 ^ k ≤ x / 2 := by
      apply Nat.div_le_div_left _ (by norm_num)
      calc 2 = 2 ^ 1 := by norm_num
        _ ≤ 2 ^ k := Nat.pow_le_pow_right (by norm_num) hk
    have h3 : x / 2 < x := Nat.div_lt_self hpos (by norm_num)
    omega
  · intro h
    simp [h]

theorem or_odd (x c : ℕ) (hc : c % 2 = 1) : (x ||| c) % 2 = 1 := by
  have h : (x ||| c).testBit 0 = true := by
    simp [Nat.testBit_or, Nat.testBit_zero, hc]
  rw [Nat.testBit_zero] at h
  simpa using h

theorem imul_odd_eq_zero_iff (a b : ℕ) (ha : a < M32) (hb : b % 2 = 1) :
    imul a b = 0 ↔ a = 0 := by
  constructor
  · intro h
    have hdvd : M32 ∣ a * b := Nat.dvd_of_mod_eq_zero h
    have hcop : Nat.Coprime M32 b := by
      rw [M32_eq]
      exact Nat.Coprime.pow_left 32 (Nat.coprime_two_left.mpr (Nat.odd_iff.mpr hb))
    have hdvda : M32 ∣ a := (Nat.Coprime.dvd_of_dvd_mul_right hcop) hdvd
    exact Nat.eq_zero_of_dvd_of_lt hdvda ha
  · intro h
    simp [imul, h]

theorem xor_lt_M32 (a b : ℕ) (ha : a < M32) (hb : b < M32) : a ^^^ b < M32 := by
  rw [M32_eq] at ha hb ⊢
  exact Nat.xor_lt_two_pow ha hb

theorem shiftRight_le (x k : ℕ) : x >>> k ≤ x := by
  rw [Nat.shiftRight_eq_div_pow]
  exact Nat.div_le_self x (2 ^ k)

theorem mulberryMix_eq_zero_iff (t : ℕ) : mulberryMix t = 0 ↔ t % M32 = 0 := by
  have hM : 0 < M32 := by norm_num [M32]
  set x := t % M32 with hxdef
  have hx : x < M32 := Nat.mod_lt t hM
  have hxs : x >>> 15 < M32 := lt_of_le_of_lt (shiftRight_le x 15) hx
  have ha1 : x ^^^ (x >>> 15) < M32 := xor_lt_M32 _ _ hx hxs
  set x1 := imul (x ^^^ (x >>> 15)) (x ||| 1) with hx1def
  have hx1lt : x1 < M32 := Nat.mod_lt _ hM
  have hx1 : x1 = 0 ↔ x = 0 := by
    rw [hx1def, imul_odd_eq_zero_iff _ _ ha1 (or_odd x 1 rfl),
      xor_shiftRight_eq_zero_iff x 15 (by norm_num)]
  have hx1s : x1 >>> 7 < M32 := lt_of_le_of_lt (shiftRight_le x1 7) hx1lt
  have ha2 : x1 ^^^ (x1 >>> 7) < M32 := xor_lt_M32 _ _ hx1lt hx1s
  set P := imul (x1 ^^^ (x1 >>> 7)) (x1 ||| 61) with hPdef
  have hPlt : P < M32 := Nat.mod_lt _ hM
  have hP : P = 0 ↔ x1 = 0 := by
    rw [hPdef, imul_odd_eq_zero_iff _ _ ha2 (or_odd x1 61 rfl),
      xor_shiftRight_eq_zero_iff x1 7 (by norm_num)]
  set x2 := x1 ^^^ ((x1 + P) % M32) with hx2def
  have hx2lt : x2 < M32 := xor_lt_M32 _ _ hx1lt (Nat.mod_lt _ hM)
  have hx2 : x2 = 0 ↔ P = 0 := by
    rw [hx2def, Nat.xor_eq_zero]
    constructor
    · intro h
      rcases Nat.lt_or_ge (x1 + P) M32 with hlt | hge
      · rw [Nat.mod_eq_of_lt hlt] at h
        omega
      · rw [Nat.mod_eq_sub_mod hge, Nat.mod_eq_of_lt (by omega)] at h
        omega
    · intro h
      rw [h]
      exact (Nat.mod_eq_of_lt (by omega)).symm
  show (x2 ^^^ (x2 >>> 14)) % M32 = 0 ↔ x = 0
  rw [Nat.mod_eq_of_lt (xor_lt_M32 _ _ hx2lt
    (lt_of_le_of_lt (shiftRight_le x2 14) hx2lt))]
  rw [xor_shiftRight_eq_zero_iff x2 14 (by norm_num), hx2, hP, hx1]

theorem mulberry32_eq_zero_iff (seed n : ℕ) :
    mulberry32 seed n = 0 ↔ (seed + (n + 1) * 1831565813) % M32 = 0 := by
  rw [mulberry32]
  rw [div_eq_zero_iff]
  norm_num
  exact mulberryMix_eq_zero_iff _

theorem mulberry32_no_double_zero (seed n : ℕ) :
    mulberry32 seed n ≠ 0 ∨ mulberry32 seed (n + 1) ≠ 0 := by
  by_contra h
  push_neg at h
  obtain ⟨h1, h2⟩ := h
  rw [mulberry32_eq_zero_iff] at h1 h2
  have hd1 : M32 ∣ seed + (n + 1) * 1831565813 := Nat.dvd_of_mod_eq_zero h1
  have hd2 : M32 ∣ seed + (n + 1 + 1) * 1831565813 := Nat.dvd_of_mod_eq_zero h2
  have hsub : M32 ∣ 1831565813 := by
    have heq : seed + (n + 1 + 1) * 1831565813 - (seed + (n + 1) * 1831565813)
        = 1831565813 := by ring_nf; omega
    calc M32 ∣ seed + (n + 1 + 1) * 1831565813 - (seed + (n + 1) * 1831565813) :=
      Nat.dvd_sub' hd2 hd1
    _ = 1831565813 := heq
  have := Nat.le_of_dvd (by norm_num) hsub
  norm_num [M32] at this

/- Success of the pre-pass sampling pipeline on a seeded mulberry32
stream: retries can consume at most one extra draw because stream zeros
are isolated. -/

theorem drawNonzero_mulberry (seed pos : ℕ) :
    ∃ u p2, drawNonzero (mulberry32 seed) 2 pos = some (u, p2) := by
  rcases mulberry32_no_double_zero seed pos with h | h
  · exact ⟨mulberry32 seed pos, pos + 1, by simp [drawNonzero, h]⟩
  · by_cases h0 : mulberry32 seed pos = 0
    · exact ⟨mulberry32 seed (pos + 1), pos + 2, by simp [drawNonzero, h0, h]⟩
    · exact ⟨mulberry32 seed pos, pos + 1, by simp [drawNonzero, h0]⟩

theorem randomNormal_opsOne_mulberry (seed pos : ℕ) :
    ∃ p2, randomNormal opsOne (mulberry32 seed) 2 pos = some (0, p2) := by
  obtain ⟨u, p1, h1⟩ := drawNonzero_mulberry seed pos
  obtain ⟨v, p2, h2⟩ := drawNonzero_mulberry seed p1
  refine ⟨p2, ?_⟩
  simp [randomNormal, h1, h2, opsOne]

theorem rawMultiplier_opsOne_HIGH_mulberry (seed pos : ℕ) :
    ∃ p2, rawMultiplier opsOne (mulberry32 seed) (VOLATILITY_SETTINGS .HIGH) 2 pos
      = some (1, p2) := by
  obtain ⟨p2, h⟩ := randomNormal_opsOne_mulberry seed pos
  refine ⟨p2, ?_⟩
  simp only [rawMultiplier, VOLATILITY_SETTINGS, h, Option.map_some']
  norm_num [opsOne]

theorem capLoopPre_opsOne_HIGH (seed : ℕ) (mu : ℚ) (hcap : ¬ (2000 : ℚ) < mu * 1) :
    ∀ (n pos : ℕ) (sum : ℚ),
      ∃ p2, capLoopPre opsOne (mulberry32 seed) (VOLATILITY_SETTINGS .HIGH) mu 2 n pos sum
        = some (sum + n * (mu * 1), p2) := by
  intro n
  induction n with
  | zero =>
    intro pos sum
    exact ⟨pos, by simp [capLoopPre]⟩
  | succ n ih =>
    intro pos sum
    obtain ⟨p1, h1⟩ := rawMultiplier_opsOne_HIGH_mulberry seed pos
    obtain ⟨p2, h2⟩ := ih p1 (sum + mu * 1)
    refine ⟨p2, ?_⟩
    have hcap2 : ¬ (VOLATILITY_SETTINGS Volatility.HIGH).cap < mu * 1 := by
      simpa [VOLATILITY_SETTINGS] using hcap
    simp only [capLoopPre, h1, Option.some_bind, if_neg hcap2, h2]
    congr 2
    push_cast
    ring

theorem computeCapAdjustment_opsOne_HIGH (seed : ℕ) (mu : ℚ) (hmu : mu ≠ 0)
    (hcap : ¬ (2000 : ℚ) < mu * 1) :
    computeCapAdjustment opsOne (VOLATILITY_SETTINGS .HIGH) mu (mulberry32 seed) 2
      = some 1 := by
  obtain ⟨p2, h⟩ := capLoopPre_opsOne_HIGH seed mu hcap capSamples 0 0
  simp only [computeCapAdjustment, h, Option.map_some']
  congr 1
  rw [show (0 : ℚ) + (capSamples : ℚ) * (mu * 1) = (capSamples : ℚ) * mu by ring]
  rw [mul_comm, mul_div_assoc, div_self (by norm_num [capSamples]), mul_one, div_self hmu]

/- Run loop lemmas. -/

theorem sessionLoop_done (payoutOf : ℚ → ℕ → Option (ℚ × ℕ)) (bc tc : ℤ) (d : ℚ)
    (hd : 0 < d) (fuel : ℕ) (st : SessState) (h : ¬ st.coinInCents < tc) :
    sessionLoop payoutOf bc tc d hd (fuel + 1) st = some st := by
  simp [sessionLoop, h]

theorem runsLoop_total (payoutOf : ℚ → ℕ → Option (ℚ × ℕ)) (bc tc : ℤ) (d : ℚ)
    (hd : 0 < d) (sf : ℕ) (grid : List ℚ) (sps : ℚ) (f : ℕ → Bool)
    (hsess : ∀ pos, ∃ st,
      sessionLoop payoutOf bc tc d hd sf (initSessState d pos) = some st) :
    ∀ (n idx : ℕ) (acc : RunAcc), ∃ acc2,
      runsLoop payoutOf bc tc d hd sf grid sps f n idx acc = some acc2 := by
  intro n
  induction n with
  | zero => intro idx acc; exact ⟨acc, rfl⟩
  | succ n ih =>
    intro idx acc
    by_cases hf : f idx
    · exact ⟨acc, by simp [runsLoop, hf]⟩
    · obtain ⟨st, hst⟩ := hsess acc.pos
      obtain ⟨acc2, h2⟩ := ih (idx + 1) (pushRun grid sps idx st acc)
      exact ⟨acc2, by simp [runsLoop, hf, hst, h2]⟩

theorem runsLoop_length (payoutOf : ℚ → ℕ → Option (ℚ × ℕ)) (bc tc : ℤ) (d : ℚ)
    (hd : 0 < d) (sf : ℕ) (grid : List ℚ) (sps : ℚ) (f : ℕ → Bool) :
    ∀ (n idx : ℕ) (acc acc2 : RunAcc),
      runsLoop payoutOf bc tc d hd sf grid sps f n idx acc = some acc2 →
      ∃ m, m ≤ n ∧ acc2.runs.length = acc.runs.length + m
        ∧ (m = n ∨ f (idx + m) = true)
        ∧ ∀ j, idx ≤ j → j < idx + m → f j = false := by
  intro n
  induction n with
  | zero =>
    intro idx acc acc2 h
    injection h with h
    refine ⟨0, le_refl 0, ?_, Or.inl rfl, by omega⟩
    rw [← h]
    omega
  | succ n ih =>
    intro idx acc acc2 h
    by_cases hf : f idx
    · simp only [runsLoop, if_pos hf] at h
      injection h with h
      refine ⟨0, by omega, ?_, Or.inr (by simpa using hf), by omega⟩
      rw [← h]
      omega
    · simp only [runsLoop, if_neg hf] at h
      cases hs : sessionLoop payoutOf bc tc d hd sf (initSessState d acc.pos) with
      | none => rw [hs] at h; simp at h
      | some st =>
        rw [hs, Option.some_bind] at h
        obtain ⟨m, hm1, hm2, hm3, hm4⟩ := ih (idx + 1) (pushRun grid sps idx st acc) acc2 h
        refine ⟨m + 1, by omega, ?_, ?_, ?_⟩
        · rw [hm2]
          simp only [pushRun, List.length_append, List.length_cons, List.length_nil]
          omega
        · rcases hm3 with h3 | h3
          · left; omega
          · right
            rw [show idx + (m + 1) = idx + 1 + m by omega]
            exact h3
        · intro j hj1 hj2
          rcases eq_or_lt_of_le hj1 with h4 | h4
          · rw [← h4]
            simpa using hf
          · exact hm4 j (by omega) (by omega)

theorem runSimulation_metaId (ops : RealOps) (fuel sessFuel : ℕ) (inputs : SimInputs)
    (sys : ℕ → ℚ) (f : ℕ → Bool) (uuid now : ℕ) (r : SimResult)
    (h : runSimulation ops fuel sessFuel inputs sys f uuid now = some r) :
    r.metaId = uuid := by
  simp only [runSimulation] at h
  rw [Option.bind_eq_some] at h
  obtain ⟨capAdj, _, h⟩ := h
  rw [Option.map_eq_some'] at h
  obtain ⟨acc, _, h⟩ := h
  rw [← h]

theorem runSimulation_runs_length (ops : RealOps) (fuel sessFuel : ℕ) (inputs : SimInputs)
    (sys : ℕ → ℚ) (f : ℕ → Bool) (uuid now : ℕ) (r : SimResult)
    (h : runSimulation ops fuel sessFuel inputs sys f uuid now = some r) :
    ∃ m, m ≤ inputs.runs ∧ r.runs.length = m
      ∧ (m = inputs.runs ∨ f (1 + m) = true)
      ∧ ∀ j, 1 ≤ j → j < 1 + m → f j = false := by
  simp only [runSimulation] at h
  rw [Option.bind_eq_some] at h
  obtain ⟨capAdj, _, h⟩ := h
  rw [Option.map_eq_some'] at h
  obtain ⟨acc, hacc, hr⟩ := h
  obtain ⟨m, hm1, hm2, hm3, hm4⟩ :=
    runsLoop_length _ _ _ _ _ _ _ _ _ inputs.runs 1 initRunAcc acc hacc
  refine ⟨m, hm1, ?_, hm3, hm4⟩
  rw [← hr]
  simpa [initRunAcc] using hm2

/-- Concrete inputs of the cancellation and determinism scenarios: HIGH
tier, rtp 90 percent, bet 1, deposit 1, zero coin-in target (so every
session completes with zero spins), seed string of the single char code
97. -/
def cInputs (runs : ℕ) : SimInputs :=
  { rtp_percent := 90, volatility := .HIGH, bet_size := 1, deposit_amount := 1,
    target_points := 0, points_per_dollar := 5, coin_in_target := 0, runs := runs,
    seed := some [97], spins_per_sec := 3, traj_points := 1 }

/-- A system stream that is never consulted in the seeded scenarios. -/
def sysZero : ℕ → ℚ := fun _ => 0

/-- The concrete scenario terminates: the cap-adjustment pre-pass succeeds
on the seeded secondary stream (zeros in a mulberry32 stream are isolated,
so each retry loop needs at most two attempts) and every session completes
immediately on the zero target. -/
theorem runSim_cInputs_some (runs : ℕ) (f : ℕ → Bool) (uuid now : ℕ) :
    ∃ r, runSimulation opsOne 2 1 (cInputs runs) sysZero f uuid now = some r := by
  simp only [runSimulation, cInputs, createRng, capSeedChars, List.cons_append,
    List.nil_append]
  rw [computeCapAdjustment_opsOne_HIGH _ _ (by norm_num [VOLATILITY_SETTINGS])
    (by norm_num [VOLATILITY_SETTINGS])]
  rw [Option.some_bind]
  have htc : jsRound ((0 : ℚ) * 100) = 0 := by
    unfold jsRound
    norm_num
  rw [htc]
  obtain ⟨acc2, hacc⟩ := runsLoop_total _ _ 0 _ _ 1 _ _ f
    (fun pos => ⟨initSessState _ pos,
      sessionLoop_done _ _ 0 _ _ 0 _ (by norm_num [initSessState])⟩)
    runs 1 initRunAcc
  rw [hacc]
  exact ⟨_, rfl⟩

/-- C1 counterexample: two invocations with identical inputs and the same
non-empty seed string produce SimulationResult values that are not
identical: meta.id models crypto.randomUUID(), fresh per invocation, so
the two results differ in the meta block (the run metrics, aggregate and
trajectories do agree, per the amended theorem). -/
theorem c1_full_result_counterexample :
    ((cInputs 1).seed = some [97] ∧ ([97] : List ℕ) ≠ [])
    ∧ ∃ r1 r2,
        runSimulation opsOne 2 1 (cInputs 1) sysZero (fun _ => false) 0 0 = some r1
        ∧ runSimulation opsOne 2 1 (cInputs 1) sysZero (fun _ => false) 1 0 = some r2
        ∧ r1 ≠ r2 := by
  refine ⟨⟨rfl, by simp⟩, ?_⟩
  obtain ⟨r1, h1⟩ := runSim_cInputs_some 1 (fun _ => false) 0 0
  obtain ⟨r2, h2⟩ := runSim_cInputs_some 1 (fun _ => false) 1 0
  refine ⟨r1, r2, h1, h2, ?_⟩
  intro heq
  have m1 := runSimulation_metaId _ _ _ _ _ _ _ _ _ h1
  have m2 := runSimulation_metaId _ _ _ _ _ _ _ _ _ h2
  rw [heq, m2] at m1
  exact absurd m1 (by norm_num)

/-- Witness for c1_deterministic_except_meta at the concrete scenario. -/
theorem c1_deterministic_except_meta_witness :
    ((cInputs 1).seed = some [97] ∧ ([97] : List ℕ) ≠ [])
    ∧ (runSimulation opsOne 2 1 (cInputs 1) sysZero (fun _ => false) 0 0).map stripMeta
      = (runSimulation opsOne 2 1 (cInputs 1) sysZero (fun _ => false) 1 0).map stripMeta :=
  ⟨⟨rfl, by simp⟩,
    c1_deterministic_except_meta opsOne 2 1 (cInputs 1) [97] rfl (by simp) sysZero sysZero
      (fun _ => false) 0 1 0 0⟩

/-- C9 (amended): when the monotone cancellation flag is first observed
set at run index i <= N, the worker posts the cancelled terminal message
and never a done message (so no fabricated full result is delivered); the
internal result holds exactly the i-1 sessions completed before the flag
was seen, strictly fewer than N, but the cancelled message itself carries
no sessions at all (the partial list is discarded; see the
counterexample). -/
theorem c9_cancelled_message (ops : RealOps) (fuel sessFuel : ℕ) (inputs : SimInputs)
    (sys : ℕ → ℚ) (f : ℕ → Bool) (uuid now : ℕ) (r : SimResult) (i : ℕ)
    (hmono : ∀ a b, a ≤ b → f a = true → f b = true)
    (hi1 : 1 ≤ i) (hi : f i = true) (hiN : i ≤ inputs.runs)
    (hleast : ∀ j, 1 ≤ j → j < i → f j = false)
    (hr : runSimulation ops fuel sessFuel inputs sys f uuid now = some r) :
    runWorker ops fuel sessFuel inputs sys f uuid now = some WorkerMsg.cancelledMsg
    ∧ (∀ res, runWorker ops fuel sessFuel inputs sys f uuid now ≠ some (WorkerMsg.done res))
    ∧ r.runs.length = i - 1
    ∧ r.runs.length < inputs.runs := by
  have hend : f (inputs.runs + 1) = true := hmono i (inputs.runs + 1) (by omega) hi
  have h1 : runWorker ops fuel sessFuel inputs sys f uuid now
      = some WorkerMsg.cancelledMsg := by
    rw [runWorker, hr, hend]
    rfl
  obtain ⟨m, hm1, hm2, hm3, hm4⟩ := runSimulation_runs_length _ _ _ _ _ _ _ _ _ hr
  have hmi : m = i - 1 := by
    rcases hm3 with h3 | h3
    · exfalso
      have h4 := hm4 i hi1 (by omega)
      rw [h4] at hi
      exact Bool.noConfusion hi
    · have hni : ¬ (1 + m < i) := fun hlt => by
        rw [hleast (1 + m) (by omega) hlt] at h3
        exact Bool.noConfusion h3
      have hni2 : ¬ (i < 1 + m) := fun hlt => by
        rw [hm4 i hi1 hlt] at hi
        exact Bool.noConfusion hi
      omega
  refine ⟨h1, ?_, by omega, by omega⟩
  intro res hcontra
  rw [h1] at hcontra
  simp at hcontra

/-- Witness for c9_cancelled_message: flag constantly set, a single
requested session; the worker posts cancelled with zero sessions
completed. -/
theorem c9_cancelled_message_witness :
    ∃ r, ((∀ a b : ℕ, a ≤ b → (fun _ => true) a = true → (fun _ => true) b = true)
      ∧ (1 : ℕ) ≤ 1 ∧ (fun _ => true) 1 = true ∧ 1 ≤ (cInputs 1).runs
      ∧ (∀ j : ℕ, 1 ≤ j → j < 1 → (fun _ => true) j = false)
      ∧ runSimulation opsOne 2 1 (cInputs 1) sysZero (fun _ => true) 0 0 = some r)
    ∧ (runWorker opsOne 2 1 (cInputs 1) sysZero (fun _ => true) 0 0
        = some WorkerMsg.cancelledMsg
      ∧ (∀ res, runWorker opsOne 2 1 (cInputs 1) sysZero (fun _ => true) 0 0
          ≠ some (WorkerMsg.done res))
      ∧ r.runs.length = 1 - 1
      ∧ r.runs.length < (cInputs 1).runs) := by
  obtain ⟨r, h⟩ := runSim_cInputs_some 1 (fun _ => true) 0 0
  exact ⟨r, ⟨fun a b _ _ => rfl, le_refl 1, rfl, by norm_num [cInputs], by omega, h⟩,
    c9_cancelled_message opsOne 2 1 (cInputs 1) sysZero (fun _ => true) 0 0 r 1
      (fun a b _ _ => rfl) (le_refl 1) rfl (by norm_num [cInputs]) (by omega) h⟩

/-- C9 counterexample: with two requested sessions and the flag first
observed at run 2, one session completes, the worker posts the cancelled
message, and that message carries no sessions (msgRuns is none): the
cancelled status does not carry the sessions completed so far. -/
theorem c9_cancelled_carries_no_sessions_counterexample :
    ∃ r, runSimulation opsOne 2 1 (cInputs 2) sysZero (fun n => decide (2 ≤ n)) 0 0 = some r
      ∧ r.runs.length = 1
      ∧ runWorker opsOne 2 1 (cInputs 2) sysZero (fun n => decide (2 ≤ n)) 0 0
          = some WorkerMsg.cancelledMsg
      ∧ msgRuns WorkerMsg.cancelledMsg = none := by
  obtain ⟨r, h⟩ := runSim_cInputs_some 2 (fun n => decide (2 ≤ n)) 0 0
  refine ⟨r, h, ?_, ?_, rfl⟩
  · obtain ⟨m, hm1, hm2, hm3, hm4⟩ := runSimulation_runs_length _ _ _ _ _ _ _ _ _ h
    have h2 : (cInputs 2).runs = 2 := rfl
    rw [h2] at hm1 hm3
    have hm : m = 1 := by
      rcases hm3 with h3 | h3
      · exfalso
        have h4 := hm4 2 (by omega) (by omega)
        simp at h4
      · simp only [decide_eq_true_eq] at h3
        by_contra hne
        have hge : 2 ≤ m := by omega
        have h4 := hm4 2 (by omega) (by omega)
        simp at h4
    omega
  · rw [runWorker, h]
    rfl

end SlotSim
